import Mathlib

/-! The bucketX upload service, `services/file_service.go`.

A shallow embedding of the upload / dedup / store / fetch / snapshot path of
`services/file_service.go`, and the properties of it that the specification states.

Conventions of the embedding.

* A Go `string` and a Go `[]byte` are byte sequences: `List Byte` with `Byte = Fin 256`.
* The package-level `map[string]FileDataObject` is an association list without repeated
  keys (`AList`); two such lists denote the same Go map when they agree on every lookup.
* The process state is the map together with the content of `file_metadata.json`.
* What the operating system or the HTTP client decides (whether the form carries a
  file, whether it can be opened and read, whether the metadata file can be created and
  written) is an explicit argument of the function it affects.
* `crypto/sha256` is a parameter `sum256`: every result holds for every digest function.
* `path/filepath` and `encoding/json` are the Go standard library; the parts that
  `file_service.go` calls are transcribed from the library for a Unix target.
-/

namespace FileService

/-! ## Bytes and strings -/

/-- One octet. -/
abbrev Byte := Fin 256

/-- Go `string`: an immutable byte sequence, not necessarily valid UTF-8. -/
abbrev GoString := List Byte

/-- Lowercase hexadecimal digit of a value below 16. -/
def hexDigit (n : Nat) : Byte :=
  if n < 10 then Fin.ofNat (48 + n) else Fin.ofNat (87 + n)

/-- The `%x` verb of `fmt.Sprintf` on a byte slice: two lowercase digits per byte. -/
def hexEncode : List Byte → GoString
  | [] => []
  | b :: rest => hexDigit (b.val / 16) :: hexDigit (b.val % 16) :: hexEncode rest

/-! ## `path/filepath.Base` (Unix) -/

/-- The path separator `/`. -/
def Separator : Byte := 0x2f

/-- The loop `for len(path) > 0 && os.IsPathSeparator(path[len(path)-1])` of
`filepath.Base`: remove the trailing separators. -/
def stripTrailingSeparators (path : GoString) : GoString :=
  (path.reverse.dropWhile (fun b => b = Separator)).reverse

/-- The loop `for i >= 0 && !os.IsPathSeparator(path[i])` of `filepath.Base` followed by
`path = path[i+1:]`: what follows the last separator, the whole path when it has none. -/
def lastElement (path : GoString) : GoString :=
  (path.reverse.takeWhile (fun b => b ≠ Separator)).reverse

/-- Go `filepath.Base`: `"."` for the empty path, otherwise the last element of the path
after its trailing separators are removed, and `"/"` when nothing else is left. The volume
name is empty on Unix. -/
def Base (path : GoString) : GoString :=
  if path = [] then [0x2e]
  else
    let last := lastElement (stripTrailingSeparators path)
    if last = [] then [Separator] else last

/-! ## Data model -/

deriving instance DecidableEq for Except

/-- The Go struct `FileDataObject`. -/
structure FileDataObject where
  BucketId : GoString
  FileKey : GoString
  Filename : GoString
  Hash : GoString
  File : List Byte
deriving DecidableEq, Repr

/-- Go `map[string]FileDataObject`. -/
abbrev FileMap := AList (fun _ : GoString => FileDataObject)

/-- The state the package works on: the global `fileMetadataMap` and the content of the file
`file_metadata.json` (`none` while the file does not exist). -/
structure World where
  fileMetadataMap : FileMap
  disk : Option (List Byte)

/-- The state of a fresh process on a machine without a metadata file:
`make(map[string]FileDataObject)`. -/
def World.empty : World := ⟨∅, none⟩

/-! ## The upload request -/

/-- What `file.Open()` and `io.ReadAll` yield for an uploaded file. -/
inductive FileSource where
  | openFails
  | readFails
  | bytes (content : List Byte)
deriving DecidableEq, Repr

/-- The fields of `multipart.FileHeader` that the service uses. -/
structure FileHeader where
  Filename : GoString
  source : FileSource
deriving DecidableEq, Repr

/-- The part of `*gin.Context` that `SaveUploadedFile` reads: `c.FormFile("file")` (`none`
when it returns an error), `c.PostForm("bucket_id")` and `c.PostForm("file_key")`. -/
structure Context where
  formFile : Option FileHeader
  bucket_id : GoString
  file_key : GoString
deriving DecidableEq, Repr

/-- What the file system does when the metadata file is rewritten: `os.Create` fails, or the
write of the encoded map fails after `written` bytes, or both succeed. -/
inductive WriteOutcome where
  | createFails
  | writeFails (written : Nat)
  | succeeds
deriving DecidableEq, Repr

/-- The errors of `saveMetadataMapToFile`. -/
inductive SaveError where
  | createMetadataFile
  | encodeMetadataMap
deriving DecidableEq, Repr

/-- The errors of `SaveUploadedFile`, one per `fmt.Errorf` of the function. -/
inductive UploadError where
  | getUploadedFile
  | missingFields (fields : List String)
  | openFile
  | readFile
  | duplicateContent
  | saveMetadataMap (cause : SaveError)
deriving DecidableEq, Repr

/-- The error of `FetchFileContent`. -/
inductive FetchError where
  | doesNotExist (fileKey : GoString)
deriving DecidableEq, Repr

/-! ## `unicode/utf8` -/

/-- Go `utf8.RuneError`, U+FFFD. -/
def RuneError : Nat := 0xFFFD

/-- A continuation byte, `locb <= b && b <= hicb`. -/
def isContinuation (b : Byte) : Bool := 0x80 ≤ b.val && b.val ≤ 0xBF

/-- Go `utf8.DecodeRuneInString`: the first rune of the string and its width in bytes;
`(RuneError, 1)` for an invalid or incomplete encoding and `(RuneError, 0)` for the empty
string. Masking and shifting are written with `%` and `*`: `s0&mask2` is `s0 % 32`,
`s1&maskx` is `s1 % 64`, and the shifted parts do not overlap. The lower and upper bound of
the second byte are the `acceptRanges` entry of the first byte. -/
def DecodeRuneInString : GoString → Nat × Nat
  | [] => (RuneError, 0)
  | s0 :: rest =>
    if s0.val < 0x80 then (s0.val, 1)
    else if s0.val < 0xC2 then (RuneError, 1)
    else if s0.val < 0xE0 then
      match rest with
      | s1 :: _ =>
        if isContinuation s1 then ((s0.val % 32) * 64 + s1.val % 64, 2) else (RuneError, 1)
      | _ => (RuneError, 1)
    else if s0.val < 0xF0 then
      let lo := if s0.val = 0xE0 then 0xA0 else 0x80
      let hi := if s0.val = 0xED then 0x9F else 0xBF
      match rest with
      | s1 :: s2 :: _ =>
        if s1.val < lo ∨ hi < s1.val then (RuneError, 1)
        else if !isContinuation s2 then (RuneError, 1)
        else ((s0.val % 16) * 4096 + (s1.val % 64) * 64 + s2.val % 64, 3)
      | _ => (RuneError, 1)
    else if s0.val < 0xF5 then
      let lo := if s0.val = 0xF0 then 0x90 else 0x80
      let hi := if s0.val = 0xF4 then 0x8F else 0xBF
      match rest with
      | s1 :: s2 :: s3 :: _ =>
        if s1.val < lo ∨ hi < s1.val then (RuneError, 1)
        else if !isContinuation s2 then (RuneError, 1)
        else if !isContinuation s3 then (RuneError, 1)
        else ((s0.val % 8) * 262144 + (s1.val % 64) * 4096 + (s2.val % 64) * 64 + s3.val % 64, 4)
      | _ => (RuneError, 1)
    else (RuneError, 1)

/-- Go `utf8.AppendRune`: the UTF-8 encoding of a rune, that of U+FFFD for a surrogate or a
value above U+10FFFF. -/
def AppendRune (r : Nat) : List Byte :=
  if r < 0x80 then [Fin.ofNat r]
  else if r < 0x800 then [Fin.ofNat (0xC0 + r / 64), Fin.ofNat (0x80 + r % 64)]
  else if (0xD800 ≤ r ∧ r ≤ 0xDFFF) ∨ 0x10FFFF < r then [0xEF, 0xBF, 0xBD]
  else if r < 0x10000 then
    [Fin.ofNat (0xE0 + r / 4096), Fin.ofNat (0x80 + r / 64 % 64), Fin.ofNat (0x80 + r % 64)]
  else
    [Fin.ofNat (0xF0 + r / 262144), Fin.ofNat (0x80 + r / 4096 % 64),
      Fin.ofNat (0x80 + r / 64 % 64), Fin.ofNat (0x80 + r % 64)]

/-- Go `utf8.ValidString`, by the same walk: no position decodes to an encoding error. The
first argument bounds the number of runes and is the length of the string in `ValidString`. -/
def validLoop : Nat → GoString → Bool
  | 0, s => s.isEmpty
  | _ + 1, [] => true
  | fuel + 1, b :: rest =>
    let d := DecodeRuneInString (b :: rest)
    if d.1 = RuneError ∧ d.2 = 1 then false else validLoop fuel (rest.drop (d.2 - 1))

/-- Go `utf8.ValidString`. -/
def ValidString (s : GoString) : Bool := validLoop s.length s

/-! ## `encoding/base64`, `StdEncoding` -/

/-- The alphabet `A-Z a-z 0-9 + /` of `base64.StdEncoding`, for a value below 64. -/
def base64Char (n : Nat) : Byte :=
  if n < 26 then Fin.ofNat (65 + n)
  else if n < 52 then Fin.ofNat (71 + n)
  else if n < 62 then Fin.ofNat (n - 4)
  else if n = 62 then 0x2b
  else 0x2f

/-- Go `base64.StdEncoding.EncodeToString`: four characters for every three bytes, the last
group padded with `=`. -/
def base64Encode : List Byte → List Byte
  | a :: b :: c :: rest =>
    base64Char (a.val / 4) :: base64Char (a.val % 4 * 16 + b.val / 16) ::
      base64Char (b.val % 16 * 4 + c.val / 64) :: base64Char (c.val % 64) :: base64Encode rest
  | [a, b] =>
    [base64Char (a.val / 4), base64Char (a.val % 4 * 16 + b.val / 16),
      base64Char (b.val % 16 * 4), 0x3d]
  | [a] => [base64Char (a.val / 4), base64Char (a.val % 4 * 16), 0x3d, 0x3d]
  | [] => []

/-! ## `encoding/json`: encoding -/

/-- The bytes of an ASCII literal of the library source. -/
def ascii (s : String) : List Byte := s.data.map (fun c => Fin.ofNat c.toNat)

/-- The table `htmlSafeSet`: the ASCII bytes that `appendString` copies unescaped when HTML
escaping is on, as it is for a `json.Encoder` by default. -/
def htmlSafeSet (b : Byte) : Bool :=
  0x20 ≤ b.val && b.val < 0x80 && b.val != 0x22 && b.val != 0x26 && b.val != 0x3c &&
    b.val != 0x3e && b.val != 0x5c

/-- The `switch b` of `appendString`: the escape sequence of an ASCII byte that is not in
`htmlSafeSet`. -/
def escapeByte (b : Byte) : List Byte :=
  if b.val = 0x5c ∨ b.val = 0x22 then [0x5c, b]
  else if b.val = 0x08 then [0x5c, 0x62]
  else if b.val = 0x0c then [0x5c, 0x66]
  else if b.val = 0x0a then [0x5c, 0x6e]
  else if b.val = 0x0d then [0x5c, 0x72]
  else if b.val = 0x09 then [0x5c, 0x74]
  else [0x5c, 0x75, 0x30, 0x30, hexDigit (b.val / 16), hexDigit (b.val % 16)]

/-- The loop of `appendString` over the source string. Each turn consumes at least one byte;
the first argument bounds the number of turns and is the length of the string in
`appendString`. -/
def appendStringLoop : Nat → GoString → List Byte
  | 0, _ => []
  | _ + 1, [] => []
  | fuel + 1, b :: rest =>
    if b.val < 0x80 then
      (if htmlSafeSet b then [b] else escapeByte b) ++ appendStringLoop fuel rest
    else
      let d := DecodeRuneInString (b :: rest)
      if d.1 = RuneError ∧ d.2 = 1 then
        ascii "\\ufffd" ++ appendStringLoop fuel rest
      else if d.1 = 0x2028 ∨ d.1 = 0x2029 then
        ascii "\\u202" ++ hexDigit (d.1 % 16) :: appendStringLoop fuel (rest.drop (d.2 - 1))
      else
        (b :: rest).take d.2 ++ appendStringLoop fuel (rest.drop (d.2 - 1))

/-- The function `appendString` of `encoding/json` with `escapeHTML` set: the JSON string
literal of a Go string. Invalid UTF-8 is replaced by the escape of U+FFFD. -/
def appendString (src : GoString) : List Byte :=
  0x22 :: appendStringLoop src.length src ++ [0x22]

/-- The function `encodeByteSlice`: a `[]byte` is written as a base64 string literal. (A nil
slice is written as `null`; the slices read by `io.ReadAll` are never nil.) -/
def encodeByteSlice (b : List Byte) : List Byte :=
  0x22 :: base64Encode b ++ [0x22]

/-- The struct encoder for `FileDataObject`: the exported fields in declaration order. -/
def encodeFileDataObject (o : FileDataObject) : List Byte :=
  ascii "\x7b\"BucketId\":" ++ appendString o.BucketId ++
  ascii ",\"FileKey\":" ++ appendString o.FileKey ++
  ascii ",\"Filename\":" ++ appendString o.Filename ++
  ascii ",\"Hash\":" ++ appendString o.Hash ++
  ascii ",\"File\":" ++ encodeByteSlice o.File ++ ascii "\x7d"

/-- One `key:value` member of the encoded map. -/
def encodeMember (e : Sigma (fun _ : GoString => FileDataObject)) : List Byte :=
  appendString e.1 ++ 0x3a :: encodeFileDataObject e.2

/-- The members of the encoded map, separated by commas. -/
def encodeMembers : List (Sigma (fun _ : GoString => FileDataObject)) → List Byte
  | [] => []
  | [e] => encodeMember e
  | e :: rest => encodeMember e ++ 0x2c :: encodeMembers rest

/-- The keys of a map in the order `mapEncoder.encode` writes them: sorted as strings,
that is bytewise. -/
def sortedEntries (m : FileMap) : List (Sigma (fun _ : GoString => FileDataObject)) :=
  m.entries.insertionSort (fun a b => a.1 ≤ b.1)

/-- Go `json.NewEncoder(w).Encode(m)` for `m : map[string]FileDataObject`: the bytes handed
to the writer, a JSON object with the keys sorted, followed by a newline. Encoding this type
cannot fail. -/
def Encode (m : FileMap) : List Byte :=
  0x7b :: encodeMembers (sortedEntries m) ++ [0x7d, 0x0a]

/-! ## `services/file_service.go` -/

/-- Go `saveMetadataMapToFile`: create (truncate) `file_metadata.json` and write the JSON
encoding of the whole map into it. When `os.Create` fails the file is left as it was; when
the write fails the file holds the part that was written. -/
def saveMetadataMapToFile (w : World) (fs : WriteOutcome) : World × Except SaveError Unit :=
  match fs with
  | .createFails => (w, .error .createMetadataFile)
  | .writeFails written =>
    ({ w with disk := some ((Encode w.fileMetadataMap).take written) },
      .error .encodeMetadataMap)
  | .succeeds => ({ w with disk := some (Encode w.fileMetadataMap) }, .ok ())

/-- Go `checkDuplicateHash`: whether some record of the map has this bucket and this hash.
The error result of the Go function is always nil. -/
def checkDuplicateHash (m : FileMap) (bucketId : GoString) (hash : GoString) : Bool :=
  m.entries.any (fun e => e.2.BucketId = bucketId ∧ e.2.Hash = hash)

/-- Go `SaveUploadedFile`. The digest `sum256` stands for `sha256.New()`, `h.Write` and
`h.Sum(nil)`; `h.Write` never returns an error and `checkDuplicateHash` never does, so the
two `fmt.Errorf` branches for them are unreachable and have no counterpart here. -/
def SaveUploadedFile (sum256 : List Byte → List Byte) (c : Context) (fs : WriteOutcome)
    (w : World) : World × Except UploadError (GoString × GoString) :=
  match c.formFile with
  | none => (w, .error .getUploadedFile)
  | some file =>
    if c.bucket_id = [] ∨ c.file_key = [] then
      (w, .error (.missingFields
        ((if c.bucket_id = [] then ["bucket_id"] else []) ++
          (if c.file_key = [] then ["file_key"] else []))))
    else
      match file.source with
      | .openFails => (w, .error .openFile)
      | .readFails => (w, .error .readFile)
      | .bytes fileBytes =>
        let hashHex := hexEncode (sum256 fileBytes)
        if checkDuplicateHash w.fileMetadataMap c.bucket_id hashHex then
          (w, .error .duplicateContent)
        else
          let filename := Base file.Filename
          let fileObject : FileDataObject :=
            { BucketId := c.bucket_id, FileKey := c.file_key, Filename := filename,
              Hash := hashHex, File := fileBytes }
          let w1 := { w with fileMetadataMap := w.fileMetadataMap.insert c.file_key fileObject }
          match saveMetadataMapToFile w1 fs with
          | (w2, .error e) => (w2, .error (.saveMetadataMap e))
          | (w2, .ok _) => (w2, .ok (c.file_key, filename))

/-- Go `FetchFileContent`: the bytes and the file name of the record at the key. The function
only reads the map; the state is returned to make that explicit. -/
def FetchFileContent (fileKey : GoString) (w : World) :
    World × Except FetchError (List Byte × GoString) :=
  match w.fileMetadataMap.lookup fileKey with
  | none => (w, .error (.doesNotExist fileKey))
  | some fileObject => (w, .ok (fileObject.File, fileObject.Filename))

/-- The request of an `Ingest(bucket, key, displayName, bytes)` of the specification: a form
that carries a file that can be opened and read. -/
def ingestRequest (bucket key displayName : GoString) (bytes : List Byte) : Context :=
  { formFile := some { Filename := displayName, source := .bytes bytes },
    bucket_id := bucket, file_key := key }

/-- The operation `Ingest(bucket, key, displayName, bytes)` of the specification: a call of
`SaveUploadedFile` with that request. -/
def Ingest (sum256 : List Byte → List Byte) (bucket key displayName : GoString)
    (bytes : List Byte) (fs : WriteOutcome) (w : World) :
    World × Except UploadError (GoString × GoString) :=
  SaveUploadedFile sum256 (ingestRequest bucket key displayName bytes) fs w

/-- The operation `Fetch(key)` of the specification. -/
def Fetch (key : GoString) (w : World) : World × Except FetchError (List Byte × GoString) :=
  FetchFileContent key w

/-- The state after a sequence of `SaveUploadedFile` calls, each with its own request and
its own file-system outcome. -/
def runUploads (sum256 : List Byte → List Byte) :
    List (Context × WriteOutcome) → World → World
  | [], w => w
  | (c, fs) :: rest, w => runUploads sum256 rest (SaveUploadedFile sum256 c fs w).1

/-- The invariant of the specification: no two records under distinct keys have both the
same bucket and the same content hash. -/
def DistinctContent (m : FileMap) : Prop :=
  ∀ k1 k2 r1 r2, k1 ≠ k2 → m.lookup k1 = some r1 → m.lookup k2 = some r2 →
    ¬ (r1.BucketId = r2.BucketId ∧ r1.Hash = r2.Hash)

/-! ## Two uploads at the same time

`SaveUploadedFile` takes no lock, and `net/http` serves every request on a goroutine of
its own.
A call touches the shared map three times: `checkDuplicateHash` ranges over it (line 62),
line 78 assigns to it, and the encoder in `saveMetadataMapToFile` ranges over it (line 132).
Between any two of these another goroutine may run. The Go runtime marks a map for the
duration of an assignment and stops the whole process with a fatal error (`concurrent map
writes`, `concurrent map read and map write`, `concurrent map iteration and map write`)
when another goroutine reads, ranges over or assigns to the map while the mark is set.

In the model below a call advances by steps; a read of the map is one step, an assignment
is two (its beginning and its end), and a step that touches the map while the other call
is inside its assignment aborts the process. A range over the map is taken at one instant:
the runtime lets a range go on when an assignment begins and ends between two of its
element reads, and the range then sees the new entry or misses it, as a range after or
before the assignment does. The two steps of `saveMetadataMapToFile` (`os.Create`, then
`Encode`) are separate, so a call may write a snapshot over a newer one. -/

/-- The local variables of `SaveUploadedFile` when it reaches line 62. -/
structure Prepared where
  bucketId : GoString
  fileKey : GoString
  filename : GoString
  hashHex : GoString
  fileBytes : List Byte
deriving DecidableEq, Repr

/-- Lines 26 to 60 of `SaveUploadedFile`: the form is read, the fields are validated, the
file is read and hashed. No shared state is touched. -/
def uploadPrepare (sum256 : List Byte → List Byte) (c : Context) :
    Except UploadError Prepared :=
  match c.formFile with
  | none => .error .getUploadedFile
  | some file =>
    if c.bucket_id = [] ∨ c.file_key = [] then
      .error (.missingFields
        ((if c.bucket_id = [] then ["bucket_id"] else []) ++
          (if c.file_key = [] then ["file_key"] else [])))
    else
      match file.source with
      | .openFails => .error .openFile
      | .readFails => .error .readFile
      | .bytes fileBytes =>
        .ok { bucketId := c.bucket_id, fileKey := c.file_key, filename := file.Filename,
              hashHex := hexEncode (sum256 fileBytes), fileBytes := fileBytes }

/-- Lines 68 to 76 of `SaveUploadedFile`: the record that is stored. -/
def Prepared.fileObject (p : Prepared) : FileDataObject :=
  { BucketId := p.bucketId, FileKey := p.fileKey, Filename := Base p.filename,
    Hash := p.hashHex, File := p.fileBytes }

/-- Where a goroutine that runs `SaveUploadedFile` stands: at the start; before the duplicate
check of line 62; before the assignment of line 78; inside that assignment; before
`os.Create` (line 125); before `encoder.Encode` (line 132); returned. -/
inductive Call where
  | start (c : Context) (fs : WriteOutcome)
  | prepared (p : Prepared) (fs : WriteOutcome)
  | checked (fileObject : FileDataObject) (fs : WriteOutcome)
  | writing (fileObject : FileDataObject) (fs : WriteOutcome)
  | inserted (fileObject : FileDataObject) (fs : WriteOutcome)
  | created (fileObject : FileDataObject) (fs : WriteOutcome)
  | returned (result : Except UploadError (GoString × GoString))
deriving DecidableEq

/-- Whether the call is inside its map assignment. -/
def Call.isWriting : Call → Bool
  | .writing _ _ => true
  | _ => false

/-- One step of a call. `otherWriting` tells whether another goroutine is inside a map
assignment; `none` is the fatal error of the runtime. -/
def Call.step (sum256 : List Byte → List Byte) (t : Call) (otherWriting : Bool) (w : World) :
    Option (Call × World) :=
  match t with
  | .start c fs =>
    match uploadPrepare sum256 c with
    | .error e => some (.returned (.error e), w)
    | .ok p => some (.prepared p fs, w)
  | .prepared p fs =>
    if otherWriting then none
    else if checkDuplicateHash w.fileMetadataMap p.bucketId p.hashHex then
      some (.returned (.error .duplicateContent), w)
    else some (.checked p.fileObject fs, w)
  | .checked fileObject fs =>
    if otherWriting then none else some (.writing fileObject fs, w)
  | .writing fileObject fs =>
    some (.inserted fileObject fs,
      { w with fileMetadataMap := w.fileMetadataMap.insert fileObject.FileKey fileObject })
  | .inserted fileObject fs =>
    match fs with
    | .createFails =>
      some (.returned (.error (.saveMetadataMap .createMetadataFile)), w)
    | _ => some (.created fileObject fs, { w with disk := some [] })
  | .created fileObject fs =>
    if otherWriting then none
    else
      match fs with
      | .writeFails written =>
        some (.returned (.error (.saveMetadataMap .encodeMetadataMap)),
          { w with disk := some ((Encode w.fileMetadataMap).take written) })
      | _ =>
        some (.returned (.ok (fileObject.FileKey, fileObject.Filename)),
          { w with disk := some (Encode w.fileMetadataMap) })
  | .returned result => some (.returned result, w)

/-- Two calls, the state they share, and whether the runtime has stopped the process. -/
structure Race where
  first : Call
  second : Call
  world : World
  aborted : Bool

/-- One step of the race: `false` lets the first call take a step, `true` the second.
Nothing moves once the process is stopped. -/
def Race.step (sum256 : List Byte → List Byte) (who : Bool) (r : Race) : Race :=
  if r.aborted then r
  else
    match who with
    | false =>
      match r.first.step sum256 r.second.isWriting r.world with
      | none => { r with aborted := true }
      | some s => { r with first := s.1, world := s.2 }
    | true =>
      match r.second.step sum256 r.first.isWriting r.world with
      | none => { r with aborted := true }
      | some s => { r with second := s.1, world := s.2 }

/-- Run two calls under a schedule. -/
def Race.run (sum256 : List Byte → List Byte) : List Bool → Race → Race
  | [], r => r
  | who :: rest, r => Race.run sum256 rest (Race.step sum256 who r)

/-- Two `Ingest` calls with the same bucket and content, both about to start, the metadata
file being writable for both. -/
def ingestRace (bucket key1 name1 key2 name2 : GoString) (bytes : List Byte) (w : World) :
    Race :=
  { first := .start (ingestRequest bucket key1 name1 bytes) .succeeds,
    second := .start (ingestRequest bucket key2 name2 bytes) .succeeds,
    world := w, aborted := false }

/-- The digest of the examples: the identity, which gives different contents different
digests, as SHA-256 is meant to. -/
def sampleDigest (b : List Byte) : List Byte := b

/-- The record that a call stores. -/
def newRecord (sum256 : List Byte → List Byte) (bucket key displayName : GoString)
    (bytes : List Byte) : FileDataObject :=
  { BucketId := bucket, FileKey := key, Filename := Base displayName,
    Hash := hexEncode (sum256 bytes), File := bytes }

/-! ## `encoding/base64`: decoding -/

/-- The table `decodeMap` of `base64.StdEncoding`: the value of an alphabet character. -/
def base64Value (c : Byte) : Option Nat :=
  if 0x41 ≤ c.val ∧ c.val ≤ 0x5a then some (c.val - 0x41)
  else if 0x61 ≤ c.val ∧ c.val ≤ 0x7a then some (c.val - 71)
  else if 0x30 ≤ c.val ∧ c.val ≤ 0x39 then some (c.val + 4)
  else if c.val = 0x2b then some 62
  else if c.val = 0x2f then some 63
  else none

/-- The quanta of `base64.StdEncoding.Decode` once the line breaks are gone: four characters
give three bytes; the last quantum may end in one or two `=` and gives two bytes or one;
anything else is a `CorruptInputError`. `StdEncoding` is not strict: the unused low bits of
a padded quantum are not checked. -/
def decodeQuanta : List Byte → Option (List Byte)
  | [] => some []
  | a :: b :: c :: d :: rest =>
    match base64Value a, base64Value b with
    | some va, some vb =>
      match base64Value c, base64Value d with
      | some vc, some vd =>
        (decodeQuanta rest).map (fun tail =>
          Fin.ofNat (va * 4 + vb / 16) :: Fin.ofNat (vb % 16 * 16 + vc / 4) ::
            Fin.ofNat (vc % 4 * 64 + vd) :: tail)
      | some vc, none =>
        if d.val = 0x3d ∧ rest = [] then
          some [Fin.ofNat (va * 4 + vb / 16), Fin.ofNat (vb % 16 * 16 + vc / 4)]
        else none
      | none, _ =>
        if c.val = 0x3d ∧ d.val = 0x3d ∧ rest = [] then some [Fin.ofNat (va * 4 + vb / 16)]
        else none
    | _, _ => none
  | _ => none

/-- Go `base64.StdEncoding.Decode`: carriage returns and line feeds are skipped wherever they
stand, the rest is decoded by quanta. -/
def base64Decode (src : List Byte) : Option (List Byte) :=
  decodeQuanta (src.filter (fun c => c.val != 0x0a && c.val != 0x0d))

/-! ## `encoding/json`: decoding -/

/-- The function `isSpace` of the scanner. -/
def isSpace (c : Byte) : Bool :=
  c.val == 0x20 || c.val == 0x09 || c.val == 0x0d || c.val == 0x0a

/-- Skip the white space before the next token. -/
def skipSpace (s : List Byte) : List Byte := s.dropWhile isSpace

/-- The value of a hexadecimal digit, as in `getu4`. -/
def hexValue (c : Byte) : Option Nat :=
  if 0x30 ≤ c.val ∧ c.val ≤ 0x39 then some (c.val - 0x30)
  else if 0x61 ≤ c.val ∧ c.val ≤ 0x66 then some (c.val - 0x61 + 10)
  else if 0x41 ≤ c.val ∧ c.val ≤ 0x46 then some (c.val - 0x41 + 10)
  else none

/-- The function `getu4`: the rune of a `\uXXXX` escape at the start of the input, `none`
(`-1` in Go) when the input does not start with one. -/
def getu4 : List Byte → Option Nat
  | b :: u :: h1 :: h2 :: h3 :: h4 :: _ =>
    if b.val = 0x5c ∧ u.val = 0x75 then
      match hexValue h1, hexValue h2, hexValue h3, hexValue h4 with
      | some v1, some v2, some v3, some v4 => some (v1 * 4096 + v2 * 256 + v3 * 16 + v4)
      | _, _, _, _ => none
    else none
  | _ => none

/-- Go `utf16.DecodeRune` on the runes of two `\u` escapes, the second possibly absent:
the code point of a surrogate pair, U+FFFD when the two are not one. -/
def utf16DecodeRune (r1 : Nat) (r2 : Option Nat) : Nat :=
  match r2 with
  | some r2 =>
    if 0xd800 ≤ r1 ∧ r1 < 0xdc00 ∧ 0xdc00 ≤ r2 ∧ r2 < 0xe000 then
      (r1 - 0xd800) * 1024 + (r2 - 0xdc00) + 0x10000
    else RuneError
  | none => RuneError

/-- A string literal from the byte after its opening quote on: the scanner states
`stateInString`, `stateInStringEsc` and `stateInStringEscU` and the loop of `unquoteBytes`,
which walk the same bytes. The result is the unquoted string and the input after the closing
quote; `none` for a control character, a bad escape, or the end of the input. Bytes that are
not valid UTF-8 become U+FFFD. (`unquoteBytes` first copies the longest prefix without
escapes and invalid bytes; its main loop, transcribed here, gives the same bytes for it.)
The first argument bounds the number of turns; each turn consumes at least one byte. -/
def scanStringLoop : Nat → List Byte → Option (GoString × List Byte)
  | 0, _ => none
  | _ + 1, [] => none
  | fuel + 1, c :: rest =>
    if c.val = 0x22 then some ([], rest)
    else if c.val = 0x5c then
      match rest with
      | [] => none
      | e :: rest1 =>
        if e.val = 0x22 ∨ e.val = 0x5c ∨ e.val = 0x2f then
          (scanStringLoop fuel rest1).map (fun r => (e :: r.1, r.2))
        else if e.val = 0x62 then (scanStringLoop fuel rest1).map (fun r => (0x08 :: r.1, r.2))
        else if e.val = 0x66 then (scanStringLoop fuel rest1).map (fun r => (0x0c :: r.1, r.2))
        else if e.val = 0x6e then (scanStringLoop fuel rest1).map (fun r => (0x0a :: r.1, r.2))
        else if e.val = 0x72 then (scanStringLoop fuel rest1).map (fun r => (0x0d :: r.1, r.2))
        else if e.val = 0x74 then (scanStringLoop fuel rest1).map (fun r => (0x09 :: r.1, r.2))
        else if e.val = 0x75 then
          match getu4 (c :: rest) with
          | none => none
          | some rr =>
            let rest6 := rest1.drop 4
            if 0xd800 ≤ rr ∧ rr < 0xe000 then
              let dec := utf16DecodeRune rr (getu4 rest6)
              if dec ≠ RuneError then
                (scanStringLoop fuel (rest6.drop 6)).map (fun r => (AppendRune dec ++ r.1, r.2))
              else
                (scanStringLoop fuel rest6).map (fun r => (AppendRune RuneError ++ r.1, r.2))
            else (scanStringLoop fuel rest6).map (fun r => (AppendRune rr ++ r.1, r.2))
        else none
    else if c.val < 0x20 then none
    else if c.val < 0x80 then (scanStringLoop fuel rest).map (fun r => (c :: r.1, r.2))
    else
      let d := DecodeRuneInString (c :: rest)
      (scanStringLoop fuel (rest.drop (d.2 - 1))).map (fun r => (AppendRune d.1 ++ r.1, r.2))

/-- What the scanner is in the middle of, for `scanJSON`. -/
inductive ScanItem where
  | value
  | elements
  | members
deriving DecidableEq, Repr

/-- The digits at the start of the input, removed. -/
def skipDigits (s : List Byte) : List Byte :=
  s.dropWhile (fun c => 0x30 ≤ c.val && c.val ≤ 0x39)

/-- The scanner states of a number, from its first byte on: an optional `-`, `0` or a
non-zero digit and more digits, an optional fraction, an optional exponent. The result is
the input after the number. -/
def scanNumber (s : List Byte) : Option (List Byte) :=
  let s1 := match s with
    | c :: rest => if c.val = 0x2d then rest else s
    | [] => s
  let afterInt : Option (List Byte) := match s1 with
    | c :: rest =>
      if c.val = 0x30 then some rest
      else if 0x31 ≤ c.val ∧ c.val ≤ 0x39 then some (skipDigits rest)
      else none
    | [] => none
  let afterFrac : Option (List Byte) := afterInt.bind (fun s2 =>
    match s2 with
    | c :: d :: rest =>
      if c.val = 0x2e then
        if 0x30 ≤ d.val ∧ d.val ≤ 0x39 then some (skipDigits rest) else none
      else some s2
    | [c] => if c.val = 0x2e then none else some s2
    | [] => some s2)
  afterFrac.bind (fun s3 =>
    match s3 with
    | c :: rest =>
      if c.val = 0x65 ∨ c.val = 0x45 then
        let rest1 := match rest with
          | g :: rest2 => if g.val = 0x2b ∨ g.val = 0x2d then rest2 else rest
          | [] => rest
        match rest1 with
        | d :: rest3 => if 0x30 ≤ d.val ∧ d.val ≤ 0x39 then some (skipDigits rest3) else none
        | [] => none
      else some s3
    | [] => some s3)

/-- The scanner on a JSON value of any shape, used to skip the value of an object member
that has no field: `value` expects the first byte of a value, `elements` the first byte of
an array element, `members` the opening quote of an object key. The result is the input
after the value, the array or the object. The first argument bounds the depth and the
number of elements and members, by the length of the input. -/
def scanJSON : Nat → ScanItem → List Byte → Option (List Byte)
  | 0, _, _ => none
  | _ + 1, _, [] => none
  | fuel + 1, .value, c :: rest =>
    if c.val = 0x22 then (scanStringLoop (fuel + 1) rest).map (fun r => r.2)
    else if c.val = 0x7b then
      match skipSpace rest with
      | d :: rest1 => if d.val = 0x7d then some rest1 else scanJSON fuel .members (d :: rest1)
      | [] => none
    else if c.val = 0x5b then
      match skipSpace rest with
      | d :: rest1 => if d.val = 0x5d then some rest1 else scanJSON fuel .elements (d :: rest1)
      | [] => none
    else if c.val = 0x74 then
      if rest.take 3 = ascii "rue" then some (rest.drop 3) else none
    else if c.val = 0x66 then
      if rest.take 4 = ascii "alse" then some (rest.drop 4) else none
    else if c.val = 0x6e then
      if rest.take 3 = ascii "ull" then some (rest.drop 3) else none
    else scanNumber (c :: rest)
  | fuel + 1, .elements, c :: rest =>
    match scanJSON fuel .value (c :: rest) with
    | none => none
    | some after =>
      match skipSpace after with
      | d :: rest1 =>
        if d.val = 0x5d then some rest1
        else if d.val = 0x2c then scanJSON fuel .elements (skipSpace rest1)
        else none
      | [] => none
  | fuel + 1, .members, c :: rest =>
    if c.val = 0x22 then
      match scanStringLoop (fuel + 1) rest with
      | none => none
      | some key =>
        match skipSpace key.2 with
        | colon :: rest1 =>
          if colon.val = 0x3a then
            match scanJSON fuel .value (skipSpace rest1) with
            | none => none
            | some after =>
              match skipSpace after with
              | d :: rest2 =>
                if d.val = 0x7d then some rest2
                else if d.val = 0x2c then scanJSON fuel .members (skipSpace rest2)
                else none
              | [] => none
          else none
        | [] => none
    else none

/-- The function `foldName`: ASCII letters in upper case, every other rune replaced by the
smallest rune of its case-folding orbit. The only runes outside ASCII whose orbit reaches an
ASCII letter are U+017F (long s, folded to `S`) and U+212A (Kelvin sign, folded to `K`);
the bytes of the other runes are kept, which tells them apart from every ASCII name just as
their folded form does. (The continuation bytes of the two runes fold to themselves, one
byte each; they are dropped from the folded tail.) -/
def foldName : GoString → GoString
  | [] => []
  | c :: rest =>
    if 0x61 ≤ c.val ∧ c.val ≤ 0x7a then Fin.ofNat (c.val - 0x20) :: foldName rest
    else if c.val = 0xc5 ∧ (rest.head?.map Fin.val) = some 0xbf then
      0x53 :: (foldName rest).drop 1
    else if c.val = 0xe2 ∧ (rest.head?.map Fin.val) = some 0x84 ∧
        ((rest.drop 1).head?.map Fin.val) = some 0xaa then
      0x4b :: (foldName rest).drop 2
    else c :: foldName rest

/-- The fields of `FileDataObject`. -/
inductive Field where
  | BucketId
  | FileKey
  | Filename
  | Hash
  | File
deriving DecidableEq, Repr

/-- The name of a field in the JSON object: the Go name, there being no struct tags. -/
def Field.name : Field → GoString
  | .BucketId => ascii "BucketId"
  | .FileKey => ascii "FileKey"
  | .Filename => ascii "Filename"
  | .Hash => ascii "Hash"
  | .File => ascii "File"

/-- The fields in declaration order. -/
def Field.all : List Field := [.BucketId, .FileKey, .Filename, .Hash, .File]

/-- The field an object key stands for: `fields.byExactName[key]`, and when there is none
`fields.byFoldedName[foldName(key)]`. -/
def fieldOfKey (key : GoString) : Option Field :=
  match Field.all.find? (fun f => f.name = key) with
  | some f => some f
  | none => Field.all.find? (fun f => foldName f.name = foldName key)

/-- The value of a member whose field has type `string`, from the first byte of the value
on (`literalStore`): a string literal is stored, `null` leaves the field as it is, anything
else is an `UnmarshalTypeError` or a syntax error (`none`). The result is the new value of
the field and the input after the value. -/
def decodeStringField (fuel : Nat) (old : GoString) : List Byte → Option (GoString × List Byte)
  | [] => none
  | c :: rest =>
    if c.val = 0x22 then scanStringLoop fuel rest
    else if c.val = 0x6e ∧ rest.take 3 = ascii "ull" then some (old, rest.drop 3)
    else none

/-- The value of a member whose field has type `[]byte` (`literalStore`): a string literal is
decoded from base64, `null` sets the nil slice, anything else is an error. The library also
accepts a JSON array of numbers here; that case is outside this model and reported as an
error too. -/
def decodeBytesField (fuel : Nat) : List Byte → Option (List Byte × List Byte)
  | [] => none
  | c :: rest =>
    if c.val = 0x22 then
      match scanStringLoop fuel rest with
      | none => none
      | some r => (base64Decode r.1).map (fun b => (b, r.2))
    else if c.val = 0x6e ∧ rest.take 3 = ascii "ull" then some ([], rest.drop 3)
    else none

/-- The value of one member of the object of a `FileDataObject`, from the first byte of the
value on: stored in the field of the key, skipped when the key has no field. -/
def decodeFieldValue (fuel : Nat) (key : GoString) (o : FileDataObject) (s : List Byte) :
    Option (FileDataObject × List Byte) :=
  match fieldOfKey key with
  | some .BucketId =>
    (decodeStringField fuel o.BucketId s).map (fun r => ({ o with BucketId := r.1 }, r.2))
  | some .FileKey =>
    (decodeStringField fuel o.FileKey s).map (fun r => ({ o with FileKey := r.1 }, r.2))
  | some .Filename =>
    (decodeStringField fuel o.Filename s).map (fun r => ({ o with Filename := r.1 }, r.2))
  | some .Hash =>
    (decodeStringField fuel o.Hash s).map (fun r => ({ o with Hash := r.1 }, r.2))
  | some .File => (decodeBytesField fuel s).map (fun r => ({ o with File := r.1 }, r.2))
  | none => (scanJSON fuel .value s).map (fun r => (o, r))

/-- The loop of `decodeState.object` on a struct, from the opening quote of a key on: key,
colon, value, then a comma and the next member or the closing brace. The result is the
struct and the input after the closing brace. -/
def decodeFields : Nat → FileDataObject → List Byte → Option (FileDataObject × List Byte)
  | 0, _, _ => none
  | _ + 1, _, [] => none
  | fuel + 1, o, c :: rest =>
    if c.val = 0x22 then
      match scanStringLoop (fuel + 1) rest with
      | none => none
      | some key =>
        match skipSpace key.2 with
        | colon :: rest1 =>
          if colon.val = 0x3a then
            match decodeFieldValue (fuel + 1) key.1 o (skipSpace rest1) with
            | none => none
            | some r =>
              match skipSpace r.2 with
              | d :: rest2 =>
                if d.val = 0x7d then some (r.1, rest2)
                else if d.val = 0x2c then decodeFields fuel r.1 (skipSpace rest2)
                else none
              | [] => none
          else none
        | [] => none
    else none

/-- The zero value of `FileDataObject`, which `decodeState.object` starts every map element
from. -/
def FileDataObject.zero : FileDataObject := ⟨[], [], [], [], []⟩

/-- A map element, from the first byte of its value on: an object is decoded into the zero
struct, `null` leaves the zero struct, anything else is an error. -/
def decodeFileDataObject (fuel : Nat) : List Byte → Option (FileDataObject × List Byte)
  | [] => none
  | c :: rest =>
    if c.val = 0x7b then
      match skipSpace rest with
      | d :: rest1 =>
        if d.val = 0x7d then some (FileDataObject.zero, rest1)
        else decodeFields fuel FileDataObject.zero (d :: rest1)
      | [] => none
    else if c.val = 0x6e ∧ rest.take 3 = ascii "ull" then some (FileDataObject.zero, rest.drop 3)
    else none

/-- The loop of `decodeState.object` on the map, from the opening quote of a key on: each
member is stored with `SetMapIndex`, so a later member replaces an earlier one with the same
key. The result is the map after the closing brace. -/
def decodeEntries : Nat → FileMap → List Byte → Option FileMap
  | 0, _, _ => none
  | _ + 1, _, [] => none
  | fuel + 1, m, c :: rest =>
    if c.val = 0x22 then
      match scanStringLoop (fuel + 1) rest with
      | none => none
      | some key =>
        match skipSpace key.2 with
        | colon :: rest1 =>
          if colon.val = 0x3a then
            match decodeFileDataObject (fuel + 1) (skipSpace rest1) with
            | none => none
            | some r =>
              match skipSpace r.2 with
              | d :: rest2 =>
                if d.val = 0x7d then some (m.insert key.1 r.1)
                else if d.val = 0x2c then decodeEntries fuel (m.insert key.1 r.1) (skipSpace rest2)
                else none
              | [] => none
          else none
        | [] => none
    else none

/-- Go `json.NewDecoder(r).Decode(&m)` for `m : map[string]FileDataObject` on a reader with
this content: the first JSON value of the content is decoded into the map, which keeps the
entries it has; what follows the value is left unread. `none` stands for the error of the
library: a syntax error, an unexpected end, a value of the wrong type. Two documents that
the library accepts are outside the model and give `none` as well: a top-level `null`
(which sets the map to nil) and a `File` written as an array of numbers. The bound of
every loop is the length of the content. -/
def Decode (content : List Byte) (m : FileMap) : Option FileMap :=
  match skipSpace content with
  | c :: rest =>
    if c.val = 0x7b then
      match skipSpace rest with
      | d :: rest1 =>
        if d.val = 0x7d then some m else decodeEntries content.length m (d :: rest1)
      | [] => none
    else none
  | [] => none

/-- What the file system does when the metadata file is opened for reading: `os.Open` fails
for a reason other than the absence of the file, or it proceeds. Errors of the reads that
follow a successful `os.Open` are not modelled. -/
inductive ReadOutcome where
  | openFails
  | succeeds
deriving DecidableEq, Repr

/-- The errors of `LoadMetadataMapFromFile`. -/
inductive LoadError where
  | openMetadataFile
  | decodeMetadataMap
deriving DecidableEq, Repr

/-- Go `LoadMetadataMapFromFile`: when `file_metadata.json` does not exist the map becomes
empty; otherwise the file is decoded into the map. After a decoding error the Go map may
hold some of the decoded entries; that state is not modelled, the error stands for it. -/
def LoadMetadataMapFromFile (w : World) (fs : ReadOutcome) : Except LoadError World :=
  match fs with
  | .openFails => .error .openMetadataFile
  | .succeeds =>
    match w.disk with
    | none => .ok { w with fileMetadataMap := ∅ }
    | some content =>
      match Decode content w.fileMetadataMap with
      | none => .error .decodeMetadataMap
      | some m => .ok { w with fileMetadataMap := m }

/-! ## Notions used in the proofs -/

/-- A string of bytes that `appendString` copies unescaped. -/
def Plain (s : GoString) : Prop := ∀ c ∈ s, htmlSafeSet c = true

/-- The field of a struct set to a string, for the four fields of type `string`. -/
def setString (f : Field) (v : GoString) (o : FileDataObject) : FileDataObject :=
  match f with
  | .BucketId => { o with BucketId := v }
  | .FileKey => { o with FileKey := v }
  | .Filename => { o with Filename := v }
  | .Hash => { o with Hash := v }
  | .File => o

/-- A record whose four strings are valid UTF-8. The content bytes are arbitrary. -/
def ValidRecord (o : FileDataObject) : Prop :=
  ValidString o.BucketId = true ∧ ValidString o.FileKey = true ∧
    ValidString o.Filename = true ∧ ValidString o.Hash = true

/-- A map whose keys and whose records' strings are valid UTF-8. -/
def ValidMap (m : FileMap) : Prop :=
  ∀ e ∈ m.entries, ValidString e.1 = true ∧ ValidRecord e.2

/-- The map after the entries of a list are stored one after the other. -/
def storeAll (m : FileMap) (l : List (Sigma (fun _ : GoString => FileDataObject))) : FileMap :=
  l.foldl (fun acc e => acc.insert e.1 e.2) m

/-- The states of an `Ingest` call with non-empty bucket and key and a writable metadata
file, by name: the proofs about two calls follow the pair of names. -/
inductive Stage where
  | start
  | prepared
  | checked
  | writing
  | inserted
  | created
  | succeeded
  | rejected
deriving DecidableEq, Repr

/-- The stages at which the call has returned. -/
def Stage.returned? : Stage → Bool
  | .succeeded => true
  | .rejected => true
  | _ => false

theorem Fin_ofNat_eq (b : Byte) (n : Nat) (h : n = b.val) : (Fin.ofNat n : Byte) = b := by
  apply Fin.ext
  show n % 256 = b.val
  omega

theorem hexValue_hexDigit (n : Nat) (h : n < 16) : hexValue (hexDigit n) = some n := by
  interval_cases n <;> decide

theorem scanStringLoop_safe (fuel : Nat) (b : Byte) (tail : List Byte)
    (hs : htmlSafeSet b = true) :
    scanStringLoop (fuel + 1) (b :: tail) =
      (scanStringLoop fuel tail).map (fun r => (b :: r.1, r.2)) := by
  simp only [htmlSafeSet, Bool.and_eq_true, decide_eq_true_eq, bne_iff_ne, ne_eq] at hs
  simp only [scanStringLoop]
  rw [if_neg (by omega), if_neg (by omega), if_neg (by omega), if_pos (by omega)]

theorem scanStringLoop_escape (fuel : Nat) (b : Byte) (tail : List Byte)
    (hb : b.val < 0x80) (hs : htmlSafeSet b = false) :
    scanStringLoop (fuel + 1) (escapeByte b ++ tail) =
      (scanStringLoop fuel tail).map (fun r => (b :: r.1, r.2)) := by
  unfold escapeByte
  split_ifs with h1 h2 h3 h4 h5 h6
  · rcases h1 with h1 | h1 <;> simp +decide [scanStringLoop, h1, Fin.ext_iff]
  · have : b = 0x08 := Fin.ext h2
    subst this
    simp +decide [scanStringLoop]
  · have : b = 0x0c := Fin.ext h3
    subst this
    simp +decide [scanStringLoop]
  · have : b = 0x0a := Fin.ext h4
    subst this
    simp +decide [scanStringLoop]
  · have : b = 0x0d := Fin.ext h5
    subst this
    simp +decide [scanStringLoop]
  · have : b = 0x09 := Fin.ext h6
    subst this
    simp +decide [scanStringLoop]
  · have hg : getu4 (0x5c :: 0x75 :: 0x30 :: 0x30 :: hexDigit (b.val / 16) ::
        hexDigit (b.val % 16) :: tail) = some b.val := by
      have h0 : hexValue (0x30 : Byte) = some 0 := by decide
      simp only [getu4]
      rw [hexValue_hexDigit _ (by omega), hexValue_hexDigit _ (by omega), h0]
      simp +decide
      omega
    have ha : AppendRune b.val = [b] := by
      unfold AppendRune
      rw [if_pos hb, Fin_ofNat_eq b _ rfl]
    simp only [List.cons_append, List.nil_append]
    simp only [scanStringLoop]
    simp +decide [hg, ha]
    omega

/-- A multi-byte encoding that `DecodeRuneInString` accepts: the bytes it covers are what
`AppendRune` writes for the rune, and the result does not depend on what follows them. -/
theorem DecodeRuneInString_valid (b : Byte) (t : GoString) (hb : 0x80 ≤ b.val)
    (h : ¬ ((DecodeRuneInString (b :: t)).1 = RuneError ∧ (DecodeRuneInString (b :: t)).2 = 1)) :
    ∃ cs tail, t = cs ++ tail ∧ cs.length + 1 = (DecodeRuneInString (b :: t)).2 ∧
      AppendRune (DecodeRuneInString (b :: t)).1 = b :: cs ∧
      ∀ tail', DecodeRuneInString (b :: (cs ++ tail')) = DecodeRuneInString (b :: t) := by
  unfold DecodeRuneInString at h ⊢
  have hlt := b.isLt
  by_cases h1 : b.val < 0x80
  · omega
  by_cases h2 : b.val < 0xC2
  · simp [h1, h2, RuneError] at h
  by_cases h3 : b.val < 0xE0
  · match t with
    | [] => simp [h1, h2, h3, RuneError] at h
    | s1 :: t' =>
      by_cases hc : isContinuation s1 = true
      · refine ⟨[s1], t', rfl, by simp [h1, h2, h3, hc], ?_, ?_⟩
        · simp only [h1, h2, h3, hc, if_true, if_false]
          have hs1 := s1.isLt
          simp only [isContinuation, Bool.and_eq_true, decide_eq_true_eq] at hc
          unfold AppendRune
          rw [if_neg (by omega), if_pos (by omega)]
          congr 1
          · exact Fin_ofNat_eq _ _ (by omega)
          · congr 1
            exact Fin_ofNat_eq _ _ (by omega)
        · intro tail'
          simp [h1, h2, h3, hc]
      · simp [h1, h2, h3, hc, RuneError] at h
  by_cases h4 : b.val < 0xF0
  · match t with
    | [] => simp [h1, h2, h3, h4, RuneError] at h
    | [_] => simp [h1, h2, h3, h4, RuneError] at h
    | s1 :: s2 :: t' =>
      by_cases hr : s1.val < (if b.val = 0xE0 then 0xA0 else 0x80) ∨
          (if b.val = 0xED then 0x9F else 0xBF) < s1.val
      · simp [h1, h2, h3, h4, hr, RuneError] at h
      by_cases hc : isContinuation s2 = true
      · refine ⟨[s1, s2], t', rfl, by simp [h1, h2, h3, h4, hr, hc], ?_, ?_⟩
        · simp only [h1, h2, h3, h4, hr, hc, if_true, if_false, Bool.not_true,
            Bool.false_eq_true]
          have hs1 := s1.isLt
          have hs2 := s2.isLt
          simp only [isContinuation, Bool.and_eq_true, decide_eq_true_eq] at hc
          unfold AppendRune
          split_ifs at hr <;>
          · rw [if_neg (by omega), if_neg (by omega), if_neg (by omega), if_pos (by omega)]
            congr 1
            · exact Fin_ofNat_eq _ _ (by omega)
            · congr 1
              · exact Fin_ofNat_eq _ _ (by omega)
              · congr 1
                exact Fin_ofNat_eq _ _ (by omega)
        · intro tail'
          simp [h1, h2, h3, h4, hr, hc]
      · simp [h1, h2, h3, h4, hr, hc, RuneError] at h
  by_cases h5 : b.val < 0xF5
  · match t with
    | [] => simp [h1, h2, h3, h4, h5, RuneError] at h
    | [_] => simp [h1, h2, h3, h4, h5, RuneError] at h
    | [_, _] => simp [h1, h2, h3, h4, h5, RuneError] at h
    | s1 :: s2 :: s3 :: t' =>
      by_cases hr : s1.val < (if b.val = 0xF0 then 0x90 else 0x80) ∨
          (if b.val = 0xF4 then 0x8F else 0xBF) < s1.val
      · simp [h1, h2, h3, h4, h5, hr, RuneError] at h
      by_cases hc : isContinuation s2 = true
      · by_cases hc3 : isContinuation s3 = true
        · refine ⟨[s1, s2, s3], t', rfl, by simp [h1, h2, h3, h4, h5, hr, hc, hc3], ?_, ?_⟩
          · simp only [h1, h2, h3, h4, h5, hr, hc, hc3, if_true, if_false, Bool.not_true,
              Bool.false_eq_true]
            have hs1 := s1.isLt
            have hs2 := s2.isLt
            have hs3 := s3.isLt
            simp only [isContinuation, Bool.and_eq_true, decide_eq_true_eq] at hc hc3
            unfold AppendRune
            split_ifs at hr <;>
            · rw [if_neg (by omega), if_neg (by omega), if_neg (by omega), if_neg (by omega)]
              congr 1
              · exact Fin_ofNat_eq _ _ (by omega)
              · congr 1
                · exact Fin_ofNat_eq _ _ (by omega)
                · congr 1
                  · exact Fin_ofNat_eq _ _ (by omega)
                  · congr 1
                    exact Fin_ofNat_eq _ _ (by omega)
          · intro tail'
            simp [h1, h2, h3, h4, h5, hr, hc, hc3]
        · simp [h1, h2, h3, h4, h5, hr, hc, hc3, RuneError] at h
      · simp [h1, h2, h3, h4, h5, hr, hc, RuneError] at h
  · simp [h1, h2, h3, h4, h5, RuneError] at h

theorem DecodeRuneInString_ascii (b : Byte) (t : GoString) (hb : b.val < 0x80) :
    DecodeRuneInString (b :: t) = (b.val, 1) := by
  simp [DecodeRuneInString, hb]

theorem scanStringLoop_quote (fuel : Nat) (rest : List Byte) (h : 0 < fuel) :
    scanStringLoop fuel (0x22 :: rest) = some ([], rest) := by
  obtain ⟨k, rfl⟩ : ∃ k, fuel = k + 1 := ⟨fuel - 1, by omega⟩
  simp +decide [scanStringLoop]

theorem scanStringLoop_multibyte (fuel : Nat) (b : Byte) (rest : List Byte)
    (hb : 0x80 ≤ b.val) :
    scanStringLoop (fuel + 1) (b :: rest) =
      (scanStringLoop fuel (rest.drop ((DecodeRuneInString (b :: rest)).2 - 1))).map
        (fun r => (AppendRune (DecodeRuneInString (b :: rest)).1 ++ r.1, r.2)) := by
  simp only [scanStringLoop]
  rw [if_neg (by omega), if_neg (by omega), if_neg (by omega), if_neg (by omega)]

theorem scanStringLoop_lineSeparator (fuel : Nat) (r : Nat) (hr : r = 0x2028 ∨ r = 0x2029)
    (tail : List Byte) :
    scanStringLoop (fuel + 1) (ascii "\\u202" ++ hexDigit (r % 16) :: tail) =
      (scanStringLoop fuel tail).map (fun x => (AppendRune r ++ x.1, x.2)) := by
  rcases hr with rfl | rfl <;>
  · simp only [scanStringLoop]
    simp +decide [ascii, getu4, hexDigit, hexValue]
    rfl

/-- The decoder reads back what `appendString` wrote for a string of valid UTF-8. -/
theorem scanStringLoop_appendStringLoop (n : Nat) :
    ∀ (s : GoString) (rest : List Byte) (fuel : Nat),
      s.length ≤ n → validLoop n s = true → (appendStringLoop n s).length < fuel →
      scanStringLoop fuel (appendStringLoop n s ++ 0x22 :: rest) = some (s, rest) := by
  induction n with
  | zero =>
    intro s rest fuel hlen _ hfuel
    have hs : s = [] := List.length_eq_zero.mp (by omega)
    subst hs
    simpa [appendStringLoop] using scanStringLoop_quote fuel rest (by omega)
  | succ n ih =>
    intro s rest fuel hlen hvalid hfuel
    cases s with
    | nil => simpa [appendStringLoop] using scanStringLoop_quote fuel rest (by omega)
    | cons b t =>
      obtain ⟨k, rfl⟩ : ∃ k, fuel = k + 1 := ⟨fuel - 1, by omega⟩
      have htlen : t.length ≤ n := by simpa using hlen
      by_cases hb : b.val < 0x80
      · have hvt : validLoop n t = true := by
          have hv := hvalid
          simp only [validLoop, DecodeRuneInString_ascii b t hb] at hv
          simp at hv
          exact hv.2
        cases hsafe : htmlSafeSet b with
        | true =>
          have henc : appendStringLoop (n + 1) (b :: t) = b :: appendStringLoop n t := by
            simp [appendStringLoop, hb, hsafe]
          rw [henc] at hfuel ⊢
          rw [List.cons_append, scanStringLoop_safe k b _ hsafe,
            ih t rest k htlen hvt (by simpa using hfuel)]
          rfl
        | false =>
          have henc : appendStringLoop (n + 1) (b :: t) =
              escapeByte b ++ appendStringLoop n t := by
            simp [appendStringLoop, hb, hsafe]
          rw [henc] at hfuel ⊢
          have hpos : 0 < (escapeByte b).length := by
            unfold escapeByte; split_ifs <;> simp
          rw [List.append_assoc, scanStringLoop_escape k b _ hb hsafe,
            ih t rest k htlen hvt (by rw [List.length_append] at hfuel; omega)]
          rfl
      · have hb' : 0x80 ≤ b.val := by omega
        have hok : ¬ ((DecodeRuneInString (b :: t)).1 = RuneError ∧
            (DecodeRuneInString (b :: t)).2 = 1) := by
          intro hbad
          simp [validLoop, hbad] at hvalid
        obtain ⟨cs, tail, ht, hcs, happ, hdet⟩ := DecodeRuneInString_valid b t hb' hok
        have hdrop : t.drop ((DecodeRuneInString (b :: t)).2 - 1) = tail := by
          rw [← hcs, ht]; simp
        have hvt : validLoop n tail = true := by
          simpa [validLoop, hok, hdrop] using hvalid
        have htail : tail.length ≤ n := by
          rw [ht, List.length_append] at htlen; omega
        by_cases hls : (DecodeRuneInString (b :: t)).1 = 0x2028 ∨
            (DecodeRuneInString (b :: t)).1 = 0x2029
        · have henc : appendStringLoop (n + 1) (b :: t) =
              ascii "\\u202" ++ hexDigit ((DecodeRuneInString (b :: t)).1 % 16) ::
                appendStringLoop n tail := by
            simp only [appendStringLoop]
            rw [if_neg hb, if_neg hok, if_pos hls, hdrop]
          rw [henc] at hfuel ⊢
          have hfuel' : (appendStringLoop n tail).length < k := by
            simp [ascii] at hfuel; omega
          rw [List.append_assoc, List.cons_append,
            scanStringLoop_lineSeparator k _ hls, ih tail rest k htail hvt hfuel', happ, ht]
          rfl
        · have henc : appendStringLoop (n + 1) (b :: t) =
              b :: (cs ++ appendStringLoop n tail) := by
            simp only [appendStringLoop]
            rw [if_neg hb, if_neg hok, if_neg hls, hdrop, ← hcs, ht]
            simp
          rw [henc] at hfuel ⊢
          have hfuel' : (appendStringLoop n tail).length < k := by
            simp at hfuel; omega
          rw [List.cons_append, List.append_assoc, scanStringLoop_multibyte k b _ hb', hdet,
            ← hcs]
          simp only [Nat.add_sub_cancel, List.drop_left]
          rw [ih tail rest k htail hvt hfuel', happ, ht]
          rfl

theorem base64Value_base64Char (n : Nat) (h : n < 64) : base64Value (base64Char n) = some n := by
  interval_cases n <;> decide

theorem base64Value_pad : base64Value 0x3d = none := by decide

theorem base64Char_ne_newline (n : Nat) (h : n < 64) :
    ((base64Char n).val != 0x0a && (base64Char n).val != 0x0d) = true := by
  interval_cases n <;> decide

theorem base64Encode_filter (b : List Byte) :
    (base64Encode b).filter (fun c => c.val != 0x0a && c.val != 0x0d) = base64Encode b := by
  rw [List.filter_eq_self]
  induction b using base64Encode.induct with
  | case1 a b c rest ih =>
    have ha := a.isLt
    have hb := b.isLt
    have hc := c.isLt
    intro x hx
    simp only [base64Encode, List.mem_cons] at hx
    rcases hx with rfl | rfl | rfl | rfl | hx
    · exact base64Char_ne_newline _ (by omega)
    · exact base64Char_ne_newline _ (by omega)
    · exact base64Char_ne_newline _ (by omega)
    · exact base64Char_ne_newline _ (by omega)
    · exact ih x hx
  | case2 a b =>
    have ha := a.isLt
    have hb := b.isLt
    intro x hx
    simp only [base64Encode, List.mem_cons, List.mem_singleton] at hx
    rcases hx with rfl | rfl | rfl | rfl | hx
    · exact base64Char_ne_newline _ (by omega)
    · exact base64Char_ne_newline _ (by omega)
    · exact base64Char_ne_newline _ (by omega)
    · decide
    · simp at hx
  | case3 a =>
    have ha := a.isLt
    intro x hx
    simp only [base64Encode, List.mem_cons, List.mem_singleton] at hx
    rcases hx with rfl | rfl | rfl | rfl | hx
    · exact base64Char_ne_newline _ (by omega)
    · exact base64Char_ne_newline _ (by omega)
    · decide
    · decide
    · simp at hx
  | case4 => simp [base64Encode]

theorem decodeQuanta_base64Encode (b : List Byte) : decodeQuanta (base64Encode b) = some b := by
  induction b using base64Encode.induct with
  | case1 a b c rest ih =>
    have ha := a.isLt
    have hb := b.isLt
    have hc := c.isLt
    simp only [base64Encode, decodeQuanta]
    rw [base64Value_base64Char _ (by omega), base64Value_base64Char _ (by omega),
      base64Value_base64Char _ (by omega), base64Value_base64Char _ (by omega)]
    simp only [ih, Option.map_some']
    rw [Fin_ofNat_eq a _ (by omega), Fin_ofNat_eq b _ (by omega), Fin_ofNat_eq c _ (by omega)]
  | case2 a b =>
    have ha := a.isLt
    have hb := b.isLt
    simp only [base64Encode, decodeQuanta]
    rw [base64Value_base64Char _ (by omega), base64Value_base64Char _ (by omega),
      base64Value_base64Char _ (by omega), base64Value_pad]
    simp +decide only [and_self, if_true]
    rw [Fin_ofNat_eq a _ (by omega), Fin_ofNat_eq b _ (by omega)]
  | case3 a =>
    have ha := a.isLt
    simp only [base64Encode, decodeQuanta]
    rw [base64Value_base64Char _ (by omega), base64Value_base64Char _ (by omega),
      base64Value_pad]
    simp +decide only [and_self, if_true]
    rw [Fin_ofNat_eq a _ (by omega)]
  | case4 => simp [base64Encode, decodeQuanta]

/-- Base64 round trip, for every byte sequence. -/
theorem base64Decode_base64Encode (b : List Byte) : base64Decode (base64Encode b) = some b := by
  rw [base64Decode, base64Encode_filter, decodeQuanta_base64Encode]

theorem scanStringLoop_plain (s : GoString) (hs : Plain s) :
    ∀ (rest : List Byte) (fuel : Nat), s.length < fuel →
      scanStringLoop fuel (s ++ 0x22 :: rest) = some (s, rest) := by
  induction s with
  | nil =>
    intro rest fuel hf
    exact scanStringLoop_quote fuel rest hf
  | cons c t ih =>
    intro rest fuel hf
    obtain ⟨k, rfl⟩ : ∃ k, fuel = k + 1 := ⟨fuel - 1, by simp at hf; omega⟩
    rw [List.cons_append, scanStringLoop_safe k c _ (hs c (List.mem_cons_self _ _)),
      ih (fun x hx => hs x (List.mem_cons_of_mem _ hx)) rest k (by simpa using hf)]
    rfl

theorem skipSpace_cons (c : Byte) (rest : List Byte) (h : isSpace c = false) :
    skipSpace (c :: rest) = c :: rest := by
  simp [skipSpace, List.dropWhile_cons, h]

theorem base64Char_safe (n : Nat) (h : n < 64) : htmlSafeSet (base64Char n) = true := by
  interval_cases n <;> decide

theorem base64Encode_plain (b : List Byte) : Plain (base64Encode b) := by
  induction b using base64Encode.induct with
  | case1 a b c rest ih =>
    have ha := a.isLt
    have hb := b.isLt
    have hc := c.isLt
    intro x hx
    simp only [base64Encode, List.mem_cons] at hx
    rcases hx with rfl | rfl | rfl | rfl | hx
    · exact base64Char_safe _ (by omega)
    · exact base64Char_safe _ (by omega)
    · exact base64Char_safe _ (by omega)
    · exact base64Char_safe _ (by omega)
    · exact ih x hx
  | case2 a b =>
    have ha := a.isLt
    have hb := b.isLt
    intro x hx
    simp only [base64Encode, List.mem_cons, List.mem_singleton] at hx
    rcases hx with rfl | rfl | rfl | rfl | hx
    · exact base64Char_safe _ (by omega)
    · exact base64Char_safe _ (by omega)
    · exact base64Char_safe _ (by omega)
    · decide
    · simp at hx
  | case3 a =>
    have ha := a.isLt
    intro x hx
    simp only [base64Encode, List.mem_cons, List.mem_singleton] at hx
    rcases hx with rfl | rfl | rfl | rfl | hx
    · exact base64Char_safe _ (by omega)
    · exact base64Char_safe _ (by omega)
    · decide
    · decide
    · simp at hx
  | case4 => intro x hx; simp [base64Encode] at hx

set_option maxRecDepth 8000 in
theorem Field_name_plain (f : Field) : Plain f.name := by
  cases f <;> (unfold Plain; decide)

set_option maxRecDepth 8000 in
theorem fieldOfKey_name (f : Field) : fieldOfKey f.name = some f := by
  cases f <;> decide

theorem Field_name_length (f : Field) : f.name.length ≤ 8 := by
  cases f <;> decide

theorem decodeFieldValue_string (fuel : Nat) (f : Field) (hf : f ≠ .File) (o : FileDataObject)
    (v : GoString) (rest : List Byte) (hv : ValidString v = true)
    (hfuel : (appendString v).length ≤ fuel) :
    decodeFieldValue fuel f.name o (skipSpace (appendString v ++ rest)) =
      some (setString f v o, rest) := by
  have hscan : scanStringLoop fuel (appendStringLoop v.length v ++ 0x22 :: rest) =
      some (v, rest) :=
    scanStringLoop_appendStringLoop v.length v rest fuel (le_refl _) hv
      (by simp [appendString] at hfuel; omega)
  have hin : skipSpace (appendString v ++ rest) =
      0x22 :: (appendStringLoop v.length v ++ 0x22 :: rest) := by
    simp only [appendString, List.cons_append, List.append_assoc, List.singleton_append]
    exact skipSpace_cons _ _ (by decide)
  rw [hin, decodeFieldValue, fieldOfKey_name]
  cases f <;> first
    | exact absurd rfl hf
    | (simp +decide [decodeStringField, hscan, setString])

theorem decodeFieldValue_bytes (fuel : Nat) (o : FileDataObject)
    (b : List Byte) (rest : List Byte) (hfuel : (encodeByteSlice b).length ≤ fuel) :
    decodeFieldValue fuel Field.File.name o (skipSpace (encodeByteSlice b ++ rest)) =
      some ({ o with File := b }, rest) := by
  have hscan : scanStringLoop fuel (base64Encode b ++ 0x22 :: rest) =
      some (base64Encode b, rest) :=
    scanStringLoop_plain _ (base64Encode_plain b) rest fuel
      (by simp [encodeByteSlice] at hfuel; omega)
  have hin : skipSpace (encodeByteSlice b ++ rest) =
      0x22 :: (base64Encode b ++ 0x22 :: rest) := by
    simp only [encodeByteSlice, List.cons_append, List.append_assoc, List.singleton_append]
    exact skipSpace_cons _ _ (by decide)
  rw [hin, decodeFieldValue, fieldOfKey_name]
  simp +decide [decodeBytesField, hscan, base64Decode_base64Encode]

theorem decodeFields_member_comma (fuel : Nat) (f : Field) (o o' : FileDataObject)
    (value more : List Byte) (hfuel : 8 ≤ fuel)
    (hval : decodeFieldValue (fuel + 1) f.name o (skipSpace (value ++ 0x2c :: 0x22 :: more)) =
      some (o', 0x2c :: 0x22 :: more)) :
    decodeFields (fuel + 1) o
        (0x22 :: (f.name ++ 0x22 :: 0x3a :: (value ++ 0x2c :: 0x22 :: more))) =
      decodeFields fuel o' (0x22 :: more) := by
  have hkey := scanStringLoop_plain f.name (Field_name_plain f)
    (0x3a :: (value ++ 0x2c :: 0x22 :: more)) (fuel + 1)
    (by have := Field_name_length f; omega)
  simp only [decodeFields]
  rw [if_pos (by decide), hkey]
  simp only []
  rw [skipSpace_cons _ _ (by decide)]
  simp only []
  rw [if_pos (by decide), hval]
  simp only []
  rw [skipSpace_cons _ _ (by decide)]
  simp only []
  rw [if_neg (by decide), if_pos (by decide), skipSpace_cons _ _ (by decide)]

theorem decodeFields_member_close (fuel : Nat) (f : Field) (o o' : FileDataObject)
    (value rest : List Byte) (hfuel : 8 ≤ fuel)
    (hval : decodeFieldValue (fuel + 1) f.name o (skipSpace (value ++ 0x7d :: rest)) =
      some (o', 0x7d :: rest)) :
    decodeFields (fuel + 1) o (0x22 :: (f.name ++ 0x22 :: 0x3a :: (value ++ 0x7d :: rest))) =
      some (o', rest) := by
  have hkey := scanStringLoop_plain f.name (Field_name_plain f)
    (0x3a :: (value ++ 0x7d :: rest)) (fuel + 1)
    (by have := Field_name_length f; omega)
  simp only [decodeFields]
  rw [if_pos (by decide), hkey]
  simp only []
  rw [skipSpace_cons _ _ (by decide)]
  simp only []
  rw [if_pos (by decide), hval]
  simp only []
  rw [skipSpace_cons _ _ (by decide)]
  simp only []
  rw [if_pos (by decide)]

theorem encodeFileDataObject_eq (o : FileDataObject) (rest : List Byte) :
    encodeFileDataObject o ++ rest =
      0x7b :: 0x22 :: (Field.BucketId.name ++ 0x22 :: 0x3a :: (appendString o.BucketId ++
      0x2c :: 0x22 :: (Field.FileKey.name ++ 0x22 :: 0x3a :: (appendString o.FileKey ++
      0x2c :: 0x22 :: (Field.Filename.name ++ 0x22 :: 0x3a :: (appendString o.Filename ++
      0x2c :: 0x22 :: (Field.Hash.name ++ 0x22 :: 0x3a :: (appendString o.Hash ++
      0x2c :: 0x22 :: (Field.File.name ++ 0x22 :: 0x3a :: (encodeByteSlice o.File ++
      0x7d :: rest)))))))))) := by
  have h1 : ascii "\x7b\"BucketId\":" = 0x7b :: 0x22 :: (Field.BucketId.name ++ [0x22, 0x3a]) := by
    decide
  have h2 : ascii ",\"FileKey\":" = 0x2c :: 0x22 :: (Field.FileKey.name ++ [0x22, 0x3a]) := by
    decide
  have h3 : ascii ",\"Filename\":" = 0x2c :: 0x22 :: (Field.Filename.name ++ [0x22, 0x3a]) := by
    decide
  have h4 : ascii ",\"Hash\":" = 0x2c :: 0x22 :: (Field.Hash.name ++ [0x22, 0x3a]) := by
    decide
  have h5 : ascii ",\"File\":" = 0x2c :: 0x22 :: (Field.File.name ++ [0x22, 0x3a]) := by
    decide
  have h6 : ascii "\x7d" = [0x7d] := by decide
  rw [encodeFileDataObject, h1, h2, h3, h4, h5, h6]
  simp only [List.append_assoc, List.cons_append, List.nil_append]

theorem encodeFileDataObject_length (o : FileDataObject) :
    (encodeFileDataObject o).length =
      (appendString o.BucketId).length + (appendString o.FileKey).length +
      (appendString o.Filename).length + (appendString o.Hash).length +
      (encodeByteSlice o.File).length + 52 := by
  have h := congrArg List.length (encodeFileDataObject_eq o [])
  rw [List.append_nil] at h
  rw [h]
  have n1 : Field.BucketId.name.length = 8 := by decide
  have n2 : Field.FileKey.name.length = 7 := by decide
  have n3 : Field.Filename.name.length = 8 := by decide
  have n4 : Field.Hash.name.length = 4 := by decide
  have n5 : Field.File.name.length = 4 := by decide
  simp only [List.length_cons, List.length_append, List.length_nil, n1, n2, n3, n4, n5]
  omega

/-- The decoder reads back the object written for a record whose strings are valid UTF-8. -/
theorem decodeFileDataObject_encode (fuel : Nat) (o : FileDataObject) (rest : List Byte)
    (hvalid : ValidRecord o) (hfuel : (encodeFileDataObject o).length ≤ fuel) :
    decodeFileDataObject fuel (encodeFileDataObject o ++ rest) = some (o, rest) := by
  rw [encodeFileDataObject_length] at hfuel
  obtain ⟨k, rfl⟩ : ∃ k, fuel = k + 5 := ⟨fuel - 5, by omega⟩
  obtain ⟨h1, h2, h3, h4⟩ := hvalid
  rw [encodeFileDataObject_eq]
  simp only [decodeFileDataObject]
  rw [if_pos (by decide), skipSpace_cons _ _ (by decide)]
  simp only []
  rw [if_neg (by decide)]
  rw [decodeFields_member_comma (k + 4) .BucketId _ _ _ _ (by omega)
      (decodeFieldValue_string _ .BucketId (by decide) _ _ _ h1 (by omega)),
    decodeFields_member_comma (k + 3) .FileKey _ _ _ _ (by omega)
      (decodeFieldValue_string _ .FileKey (by decide) _ _ _ h2 (by omega)),
    decodeFields_member_comma (k + 2) .Filename _ _ _ _ (by omega)
      (decodeFieldValue_string _ .Filename (by decide) _ _ _ h3 (by omega)),
    decodeFields_member_comma (k + 1) .Hash _ _ _ _ (by omega)
      (decodeFieldValue_string _ .Hash (by decide) _ _ _ h4 (by omega)),
    decodeFields_member_close k .File _ _ _ _ (by omega)
      (decodeFieldValue_bytes _ _ _ _ (by omega))]
  rfl

theorem encodeMember_eq (e : Sigma (fun _ : GoString => FileDataObject)) (tail : List Byte) :
    encodeMember e ++ tail =
      0x22 :: (appendStringLoop e.1.length e.1 ++
        0x22 :: 0x3a :: (encodeFileDataObject e.2 ++ tail)) := by
  simp [encodeMember, appendString]

theorem encodeMember_length (e : Sigma (fun _ : GoString => FileDataObject)) :
    (encodeMember e).length =
      (appendStringLoop e.1.length e.1).length + (encodeFileDataObject e.2).length + 3 := by
  simp [encodeMember, appendString]
  omega

theorem encodeMembers_single (e : Sigma (fun _ : GoString => FileDataObject)) :
    encodeMembers [e] = encodeMember e := rfl

theorem encodeMembers_cons (e e' : Sigma (fun _ : GoString => FileDataObject))
    (es : List (Sigma (fun _ : GoString => FileDataObject))) :
    encodeMembers (e :: e' :: es) = encodeMember e ++ 0x2c :: encodeMembers (e' :: es) := rfl

theorem skipSpace_encodeFileDataObject (o : FileDataObject) (tail : List Byte) :
    skipSpace (encodeFileDataObject o ++ tail) = encodeFileDataObject o ++ tail := by
  rw [encodeFileDataObject_eq]
  exact skipSpace_cons _ _ (by decide)

theorem skipSpace_encodeMembers (e : Sigma (fun _ : GoString => FileDataObject))
    (es : List (Sigma (fun _ : GoString => FileDataObject))) (tail : List Byte) :
    skipSpace (encodeMembers (e :: es) ++ tail) = encodeMembers (e :: es) ++ tail := by
  cases es with
  | nil =>
    rw [encodeMembers_single, encodeMember_eq]
    exact skipSpace_cons _ _ (by decide)
  | cons e' es' =>
    rw [encodeMembers_cons, List.append_assoc, encodeMember_eq]
    exact skipSpace_cons _ _ (by decide)

theorem decodeEntries_member (fuel : Nat) (m : FileMap)
    (e : Sigma (fun _ : GoString => FileDataObject)) (tail : List Byte)
    (hkey : ValidString e.1 = true) (hrec : ValidRecord e.2)
    (hfuel : (encodeMember e).length ≤ fuel + 1) :
    decodeEntries (fuel + 1) m (encodeMember e ++ tail) =
      match skipSpace tail with
      | d :: rest2 =>
        if d.val = 0x7d then some (m.insert e.1 e.2)
        else if d.val = 0x2c then decodeEntries fuel (m.insert e.1 e.2) (skipSpace rest2)
        else none
      | [] => none := by
  rw [encodeMember_length] at hfuel
  have hscan := scanStringLoop_appendStringLoop e.1.length e.1
    (0x3a :: (encodeFileDataObject e.2 ++ tail)) (fuel + 1) (le_refl _) hkey (by omega)
  rw [encodeMember_eq]
  simp only [decodeEntries]
  rw [if_pos (by decide), hscan]
  simp only []
  rw [skipSpace_cons _ _ (by decide)]
  simp only []
  rw [if_pos (by decide), skipSpace_encodeFileDataObject]
  simp only [decodeFileDataObject_encode (fuel + 1) e.2 tail hrec (by omega)]

/-- The decoder stores every member that the encoder wrote, in the order written. -/
theorem decodeEntries_encodeMembers (es : List (Sigma (fun _ : GoString => FileDataObject))) :
    ∀ (e : Sigma (fun _ : GoString => FileDataObject)) (fuel : Nat) (m : FileMap)
      (rest : List Byte),
      (∀ x ∈ e :: es, ValidString x.1 = true ∧ ValidRecord x.2) →
      (encodeMembers (e :: es)).length ≤ fuel →
      decodeEntries fuel m (encodeMembers (e :: es) ++ 0x7d :: rest) =
        some (storeAll m (e :: es)) := by
  induction es with
  | nil =>
    intro e fuel m rest hvalid hfuel
    have hv := hvalid e (List.mem_cons_self _ _)
    rw [encodeMembers_single] at hfuel ⊢
    obtain ⟨k, rfl⟩ : ∃ k, fuel = k + 1 :=
      ⟨fuel - 1, by rw [encodeMember_length] at hfuel; omega⟩
    rw [decodeEntries_member k m e _ hv.1 hv.2 hfuel, skipSpace_cons _ _ (by decide)]
    simp only []
    rw [if_pos (by decide)]
    rfl
  | cons e' es' ih =>
    intro e fuel m rest hvalid hfuel
    have hv := hvalid e (List.mem_cons_self _ _)
    rw [encodeMembers_cons] at hfuel ⊢
    rw [List.length_append, List.length_cons] at hfuel
    obtain ⟨k, rfl⟩ : ∃ k, fuel = k + 1 := ⟨fuel - 1, by omega⟩
    rw [List.append_assoc, decodeEntries_member k m e _ hv.1 hv.2 (by omega),
      List.cons_append, skipSpace_cons _ _ (by decide)]
    simp only []
    rw [if_neg (by decide), if_pos (by decide), skipSpace_encodeMembers,
      ih e' k (m.insert e.1 e.2) rest
        (fun x hx => hvalid x (List.mem_cons_of_mem _ hx)) (by omega)]
    rfl

/-- Storing entries with distinct keys: a lookup finds the entry of the list, or what the
map held. -/
theorem lookup_storeAll (l : List (Sigma (fun _ : GoString => FileDataObject))) :
    ∀ (m : FileMap) (k : GoString), l.NodupKeys →
      (storeAll m l).lookup k = (l.dlookup k).orElse (fun _ => m.lookup k) := by
  induction l with
  | nil => intro m k _; simp [storeAll]
  | cons e l ih =>
    intro m k hnd
    rw [List.nodupKeys_cons] at hnd
    have hstep : storeAll m (e :: l) = storeAll (m.insert e.1 e.2) l := rfl
    rw [hstep, ih (m.insert e.1 e.2) k hnd.2]
    by_cases hk : k = e.1
    · subst hk
      have hnone : l.dlookup e.1 = none := by
        rw [List.dlookup_eq_none]; exact hnd.1
      obtain ⟨ek, ev⟩ := e
      simp [hnone, List.dlookup_cons_eq]
    · obtain ⟨ek, ev⟩ := e
      rw [AList.lookup_insert_ne hk, List.dlookup_cons_ne _ _ hk]

/-- Decoding the encoding of a map of valid UTF-8 strings into an empty map succeeds and
gives a map with the same lookups. -/
theorem Decode_Encode (m : FileMap) (hvalid : ValidMap m) :
    ∃ loaded, Decode (Encode m) ∅ = some loaded ∧ ∀ k, loaded.lookup k = m.lookup k := by
  have hperm : (sortedEntries m).Perm m.entries := List.perm_insertionSort _ _
  have hnd : (sortedEntries m).NodupKeys := (List.perm_nodupKeys hperm).mpr m.nodupKeys
  have hlook : ∀ k, (storeAll ∅ (sortedEntries m)).lookup k = m.lookup k := by
    intro k
    rw [lookup_storeAll _ ∅ k hnd]
    have : (sortedEntries m).dlookup k = m.entries.dlookup k :=
      List.perm_dlookup k hnd m.nodupKeys hperm
    rw [this]
    show (m.lookup k).orElse _ = _
    cases m.lookup k <;> simp
  cases hs : sortedEntries m with
  | nil =>
    refine ⟨∅, ?_, ?_⟩
    · simp +decide [Encode, hs, encodeMembers, Decode, skipSpace, List.dropWhile_cons, isSpace]
    · intro k
      rw [← hlook k, hs]
      rfl
  | cons e es =>
    refine ⟨storeAll ∅ (e :: es), ?_, ?_⟩
    · have hv : ∀ x ∈ e :: es, ValidString x.1 = true ∧ ValidRecord x.2 := by
        intro x hx
        rw [← hs] at hx
        exact hvalid x (hperm.mem_iff.mp hx)
      have hcontent : Encode m = 0x7b :: (encodeMembers (e :: es) ++ 0x7d :: [0x0a]) := by
        simp [Encode, hs]
      rw [hcontent, Decode, skipSpace_cons _ _ (by decide)]
      simp only []
      rw [if_pos (by decide), skipSpace_encodeMembers]
      have hfirst : ∃ d rest1, encodeMembers (e :: es) ++ 0x7d :: [0x0a] = d :: rest1 ∧
          d.val = 0x22 := by
        cases es with
        | nil => exact ⟨_, _, by rw [encodeMembers_single, encodeMember_eq], by decide⟩
        | cons e' es' =>
          exact ⟨_, _, by rw [encodeMembers_cons, List.append_assoc, encodeMember_eq],
            by decide⟩
      obtain ⟨d, rest1, hd, hdv⟩ := hfirst
      rw [hd]
      simp only []
      rw [if_neg (by omega), ← hd]
      exact decodeEntries_encodeMembers es e _ ∅ _ hv (by simp; omega)
    · intro k
      rw [← hs]
      exact hlook k

/-! ## Properties of the upload path -/

/-- The loop of `checkDuplicateHash` in terms of lookups. -/
theorem checkDuplicateHash_iff (m : FileMap) (bucketId hash : GoString) :
    checkDuplicateHash m bucketId hash = true ↔
      ∃ k r, m.lookup k = some r ∧ r.BucketId = bucketId ∧ r.Hash = hash := by
  unfold checkDuplicateHash
  rw [List.any_eq_true]
  constructor
  · rintro ⟨⟨k, r⟩, hmem, h⟩
    refine ⟨k, r, ?_, ?_⟩
    · exact AList.mem_lookup_iff.mpr hmem
    · simpa using h
  · rintro ⟨k, r, hl, hb, hh⟩
    exact ⟨⟨k, r⟩, AList.mem_lookup_iff.mp hl, by simp [hb, hh]⟩

theorem Ingest_duplicate (sum256 : List Byte → List Byte) (bucket key name : GoString)
    (bytes : List Byte) (fs : WriteOutcome) (w : World) (hb : bucket ≠ []) (hk : key ≠ [])
    (hd : checkDuplicateHash w.fileMetadataMap bucket (hexEncode (sum256 bytes)) = true) :
    Ingest sum256 bucket key name bytes fs w = (w, .error .duplicateContent) := by
  simp [Ingest, ingestRequest, SaveUploadedFile, hb, hk, hd]

theorem Ingest_fresh (sum256 : List Byte → List Byte) (bucket key name : GoString)
    (bytes : List Byte) (fs : WriteOutcome) (w : World) (hb : bucket ≠ []) (hk : key ≠ [])
    (hd : checkDuplicateHash w.fileMetadataMap bucket (hexEncode (sum256 bytes)) = false) :
    Ingest sum256 bucket key name bytes fs w =
      match fs with
      | .createFails =>
        ({ w with fileMetadataMap :=
            w.fileMetadataMap.insert key (newRecord sum256 bucket key name bytes) },
          .error (.saveMetadataMap .createMetadataFile))
      | .writeFails written =>
        ({ fileMetadataMap :=
            w.fileMetadataMap.insert key (newRecord sum256 bucket key name bytes),
           disk := some ((Encode (w.fileMetadataMap.insert key
            (newRecord sum256 bucket key name bytes))).take written) },
          .error (.saveMetadataMap .encodeMetadataMap))
      | .succeeds =>
        ({ fileMetadataMap :=
            w.fileMetadataMap.insert key (newRecord sum256 bucket key name bytes),
           disk := some (Encode (w.fileMetadataMap.insert key
            (newRecord sum256 bucket key name bytes))) },
          .ok (key, Base name)) := by
  cases fs <;> simp [Ingest, ingestRequest, SaveUploadedFile, hb, hk, hd, saveMetadataMapToFile, newRecord]

theorem Ingest_map_of_fresh (sum256 : List Byte → List Byte) (bucket key name : GoString)
    (bytes : List Byte) (fs : WriteOutcome) (w : World) (hb : bucket ≠ []) (hk : key ≠ [])
    (hd : checkDuplicateHash w.fileMetadataMap bucket (hexEncode (sum256 bytes)) = false) :
    (Ingest sum256 bucket key name bytes fs w).1.fileMetadataMap =
      w.fileMetadataMap.insert key (newRecord sum256 bucket key name bytes) := by
  rw [Ingest_fresh sum256 bucket key name bytes fs w hb hk hd]
  cases fs <;> rfl

theorem Ingest_result_of_fresh (sum256 : List Byte → List Byte) (bucket key name : GoString)
    (bytes : List Byte) (w : World) (hb : bucket ≠ []) (hk : key ≠ [])
    (hd : checkDuplicateHash w.fileMetadataMap bucket (hexEncode (sum256 bytes)) = false) :
    (Ingest sum256 bucket key name bytes .succeeds w).2 = .ok (key, Base name) := by
  rw [Ingest_fresh sum256 bucket key name bytes .succeeds w hb hk hd]

theorem Fetch_insert (key : GoString) (r : FileDataObject) (w : World)
    (h : w.fileMetadataMap.lookup key = some r) :
    (Fetch key w).2 = .ok (r.File, r.Filename) := by
  simp [Fetch, FetchFileContent, h]

/-- C1. An `Ingest` with non-empty bucket and key whose metadata file is written fails with
the duplicate-content error exactly when some record of the map has the same bucket and the
hash of the submitted bytes, and succeeds otherwise. From the empty registry, the same bytes
under the same bucket succeed the first time and fail the second time, whatever the second
key is, and then succeed under a different bucket. -/
theorem ingest_duplicate_iff (sum256 : List Byte → List Byte) (w : World)
    (bucket key name : GoString) (bytes : List Byte)
    (key2 name2 bucket3 key3 name3 : GoString)
    (hb : bucket ≠ []) (hk : key ≠ []) (hk2 : key2 ≠ [])
    (hb3 : bucket3 ≠ []) (hk3 : key3 ≠ []) (hbb : bucket3 ≠ bucket) :
    ((Ingest sum256 bucket key name bytes .succeeds w).2 = .error .duplicateContent ↔
      ∃ k r, w.fileMetadataMap.lookup k = some r ∧ r.BucketId = bucket ∧
        r.Hash = hexEncode (sum256 bytes)) ∧
    ((¬ ∃ k r, w.fileMetadataMap.lookup k = some r ∧ r.BucketId = bucket ∧
        r.Hash = hexEncode (sum256 bytes)) →
      (Ingest sum256 bucket key name bytes .succeeds w).2 = .ok (key, Base name)) ∧
    (Ingest sum256 bucket key name bytes .succeeds World.empty).2 = .ok (key, Base name) ∧
    (Ingest sum256 bucket key2 name2 bytes .succeeds
      (Ingest sum256 bucket key name bytes .succeeds World.empty).1).2 =
        .error .duplicateContent ∧
    (Ingest sum256 bucket3 key3 name3 bytes .succeeds
      (Ingest sum256 bucket key2 name2 bytes .succeeds
        (Ingest sum256 bucket key name bytes .succeeds World.empty).1).1).2 =
        .ok (key3, Base name3) := by
  have hgen : ∀ w : World,
      ((Ingest sum256 bucket key name bytes .succeeds w).2 = .error .duplicateContent ↔
        ∃ k r, w.fileMetadataMap.lookup k = some r ∧ r.BucketId = bucket ∧
          r.Hash = hexEncode (sum256 bytes)) ∧
      ((¬ ∃ k r, w.fileMetadataMap.lookup k = some r ∧ r.BucketId = bucket ∧
          r.Hash = hexEncode (sum256 bytes)) →
        (Ingest sum256 bucket key name bytes .succeeds w).2 = .ok (key, Base name)) := by
    intro w
    rw [← checkDuplicateHash_iff]
    cases hd : checkDuplicateHash w.fileMetadataMap bucket (hexEncode (sum256 bytes))
    · rw [Ingest_result_of_fresh sum256 bucket key name bytes w hb hk hd]
      simp
    · rw [Ingest_duplicate sum256 bucket key name bytes .succeeds w hb hk hd]
      simp
  have h0 : checkDuplicateHash World.empty.fileMetadataMap bucket
      (hexEncode (sum256 bytes)) = false := by
    simp [checkDuplicateHash, World.empty]
  have hm1 := Ingest_map_of_fresh sum256 bucket key name bytes .succeeds World.empty hb hk h0
  have h1 : checkDuplicateHash
      (Ingest sum256 bucket key name bytes .succeeds World.empty).1.fileMetadataMap bucket
      (hexEncode (sum256 bytes)) = true := by
    rw [checkDuplicateHash_iff]
    exact ⟨key, newRecord sum256 bucket key name bytes, by rw [hm1]; simp, rfl, rfl⟩
  have hw2 := Ingest_duplicate sum256 bucket key2 name2 bytes .succeeds _ hb hk2 h1
  have h3 : checkDuplicateHash
      (Ingest sum256 bucket key name bytes .succeeds World.empty).1.fileMetadataMap bucket3
      (hexEncode (sum256 bytes)) = false := by
    rw [Bool.eq_false_iff, Ne, checkDuplicateHash_iff, hm1]
    rintro ⟨k, r, hl, hrb, -⟩
    by_cases hkeq : k = key
    · subst hkeq
      simp at hl
      subst hl
      exact hbb hrb.symm
    · rw [AList.lookup_insert_ne hkeq] at hl
      simp [World.empty] at hl
  refine ⟨(hgen w).1, (hgen w).2, ?_, ?_, ?_⟩
  · exact Ingest_result_of_fresh sum256 bucket key name bytes _ hb hk h0
  · rw [hw2]
  · rw [hw2]
    exact Ingest_result_of_fresh sum256 bucket3 key3 name3 bytes _ hb3 hk3 h3

theorem Ingest_cases (sum256 : List Byte → List Byte) (bucket key name : GoString)
    (bytes : List Byte) (fs : WriteOutcome) (w : World) :
    (∃ fields, Ingest sum256 bucket key name bytes fs w = (w, .error (.missingFields fields)) ∧
      (bucket = [] ∨ key = [])) ∨
    (Ingest sum256 bucket key name bytes fs w = (w, .error .duplicateContent) ∧
      bucket ≠ [] ∧ key ≠ [] ∧
      checkDuplicateHash w.fileMetadataMap bucket (hexEncode (sum256 bytes)) = true) ∨
    (bucket ≠ [] ∧ key ≠ [] ∧
      checkDuplicateHash w.fileMetadataMap bucket (hexEncode (sum256 bytes)) = false) := by
  by_cases hv : bucket = [] ∨ key = []
  · left
    refine ⟨(if bucket = [] then ["bucket_id"] else []) ++
      (if key = [] then ["file_key"] else []), ?_, hv⟩
    simp [Ingest, ingestRequest, SaveUploadedFile, hv]
  · right
    have hb : bucket ≠ [] := fun h => hv (Or.inl h)
    have hk : key ≠ [] := fun h => hv (Or.inr h)
    cases hd : checkDuplicateHash w.fileMetadataMap bucket (hexEncode (sum256 bytes))
    · exact Or.inr ⟨hb, hk, rfl⟩
    · exact Or.inl ⟨Ingest_duplicate sum256 bucket key name bytes fs w hb hk hd, hb, hk, rfl⟩

/-- C2. Whatever the registry held before, also a record at the same key: when `Ingest`
succeeds, a `Fetch` of the key right after it succeeds and returns the submitted bytes and
the sanitized name that `Ingest` returned. -/
theorem fetch_after_ingest (sum256 : List Byte → List Byte) (w : World)
    (bucket key name : GoString) (bytes : List Byte) (fs : WriteOutcome)
    (res : GoString × GoString)
    (h : (Ingest sum256 bucket key name bytes fs w).2 = .ok res) :
    (Fetch key (Ingest sum256 bucket key name bytes fs w).1).2 = .ok (bytes, res.2) := by
  rcases Ingest_cases sum256 bucket key name bytes fs w with
    ⟨fields, he, -⟩ | ⟨he, -⟩ | ⟨hb, hk, hd⟩
  · rw [he] at h; cases h
  · rw [he] at h; cases h
  · have hm := Ingest_map_of_fresh sum256 bucket key name bytes fs w hb hk hd
    rw [Ingest_fresh sum256 bucket key name bytes fs w hb hk hd] at h
    have hres : res.2 = Base name := by
      cases fs <;> simp at h
      rw [← h]
    rw [Fetch_insert key (newRecord sum256 bucket key name bytes) _ (by rw [hm]; simp), hres]
    rfl

/-- C3. An `Ingest` with an empty bucket or an empty key fails with the missing-fields error
and leaves the state, map and metadata file, as it was. -/
theorem ingest_validation (sum256 : List Byte → List Byte) (w : World)
    (bucket key name : GoString) (bytes : List Byte) (fs : WriteOutcome)
    (h : bucket = [] ∨ key = []) :
    (Ingest sum256 bucket key name bytes fs w).2 =
      .error (.missingFields
        ((if bucket = [] then ["bucket_id"] else []) ++
          (if key = [] then ["file_key"] else []))) ∧
    (Ingest sum256 bucket key name bytes fs w).1 = w ∧
    (Ingest sum256 bucket key name bytes fs w).1.fileMetadataMap = w.fileMetadataMap := by
  simp [Ingest, ingestRequest, SaveUploadedFile, h]

theorem SaveUploadedFile_map (sum256 : List Byte → List Byte) (c : Context)
    (fs : WriteOutcome) (w : World) :
    (SaveUploadedFile sum256 c fs w).1.fileMetadataMap = w.fileMetadataMap ∨
    ∃ r : FileDataObject,
      checkDuplicateHash w.fileMetadataMap r.BucketId r.Hash = false ∧
      (SaveUploadedFile sum256 c fs w).1.fileMetadataMap = w.fileMetadataMap.insert c.file_key r := by
  unfold SaveUploadedFile
  cases hf : c.formFile with
  | none => exact Or.inl rfl
  | some file =>
    dsimp only
    by_cases hv : c.bucket_id = [] ∨ c.file_key = []
    · rw [if_pos hv]
      exact Or.inl rfl
    · rw [if_neg hv]
      cases hs : file.source with
      | openFails => exact Or.inl rfl
      | readFails => exact Or.inl rfl
      | bytes fileBytes =>
        dsimp only
        cases hd : checkDuplicateHash w.fileMetadataMap c.bucket_id
            (hexEncode (sum256 fileBytes)) with
        | true => exact Or.inl rfl
        | false =>
          right
          refine ⟨⟨c.bucket_id, c.file_key, Base file.Filename, hexEncode (sum256 fileBytes),
            fileBytes⟩, hd, ?_⟩
          cases fs <;> rfl

theorem DistinctContent_insert (m : FileMap) (key : GoString) (r : FileDataObject)
    (hm : DistinctContent m) (hd : checkDuplicateHash m r.BucketId r.Hash = false) :
    DistinctContent (m.insert key r) := by
  have hno : ∀ k r', m.lookup k = some r' → ¬ (r'.BucketId = r.BucketId ∧ r'.Hash = r.Hash) := by
    intro k r' hl hc
    have : checkDuplicateHash m r.BucketId r.Hash = true :=
      (checkDuplicateHash_iff _ _ _).mpr ⟨k, r', hl, hc.1, hc.2⟩
    rw [hd] at this
    cases this
  intro k1 k2 r1 r2 hne h1 h2
  by_cases e1 : k1 = key
  · subst e1
    rw [AList.lookup_insert] at h1
    rw [AList.lookup_insert_ne (Ne.symm hne)] at h2
    cases h1
    intro hc
    exact hno k2 r2 h2 ⟨hc.1.symm, hc.2.symm⟩
  · rw [AList.lookup_insert_ne e1] at h1
    by_cases e2 : k2 = key
    · subst e2
      rw [AList.lookup_insert] at h2
      cases h2
      exact hno k1 r1 h1
    · rw [AList.lookup_insert_ne e2] at h2
      exact hm k1 k2 r1 r2 hne h1 h2

theorem runUploads_distinct (sum256 : List Byte → List Byte)
    (calls : List (Context × WriteOutcome)) (w : World)
    (hw : DistinctContent w.fileMetadataMap) :
    DistinctContent (runUploads sum256 calls w).fileMetadataMap := by
  induction calls generalizing w with
  | nil => exact hw
  | cons call rest ih =>
    obtain ⟨c, fs⟩ := call
    apply ih
    rcases SaveUploadedFile_map sum256 c fs w with h | ⟨r, hd, h⟩
    · rw [h]; exact hw
    · rw [h]; exact DistinctContent_insert _ _ _ hw hd

/-- C4. In every state reached from the empty registry by a sequence of uploads, whatever
their requests and whether their metadata file is written or not, no two records under
distinct keys have the same bucket and the same content hash. -/
theorem distinct_content_reachable (sum256 : List Byte → List Byte)
    (calls : List (Context × WriteOutcome)) :
    DistinctContent (runUploads sum256 calls World.empty).fileMetadataMap := by
  apply runUploads_distinct
  intro k1 k2 r1 r2 _ h1
  simp [World.empty] at h1

/-- C5. `Fetch` fails with the not-found error exactly when the map holds no record at the
key, returns the bytes and the file name of the record otherwise, and leaves the state
unchanged in both cases. -/
theorem fetch_spec (key : GoString) (w : World) :
    ((Fetch key w).2 = .error (.doesNotExist key) ↔ w.fileMetadataMap.lookup key = none) ∧
    (∀ r, w.fileMetadataMap.lookup key = some r →
      (Fetch key w).2 = .ok (r.File, r.Filename)) ∧
    (Fetch key w).1 = w := by
  unfold Fetch FetchFileContent
  cases h : w.fileMetadataMap.lookup key <;> simp

/-- C6. When bucket and key are non-empty, the content is no duplicate and the metadata file
cannot be written, `Ingest` returns the persistence error and the record stays in the map:
a `Fetch` of the key right after it returns the submitted bytes and the sanitized name. -/
theorem ingest_persistence_failure (sum256 : List Byte → List Byte) (w : World)
    (bucket key name : GoString) (bytes : List Byte) (fs : WriteOutcome)
    (hb : bucket ≠ []) (hk : key ≠ [])
    (hfresh : ¬ ∃ k r, w.fileMetadataMap.lookup k = some r ∧ r.BucketId = bucket ∧
        r.Hash = hexEncode (sum256 bytes))
    (hfs : fs ≠ .succeeds) :
    (∃ cause, (Ingest sum256 bucket key name bytes fs w).2 =
      .error (.saveMetadataMap cause)) ∧
    (Fetch key (Ingest sum256 bucket key name bytes fs w).1).2 = .ok (bytes, Base name) := by
  have hd : checkDuplicateHash w.fileMetadataMap bucket (hexEncode (sum256 bytes)) = false := by
    rw [Bool.eq_false_iff, Ne, checkDuplicateHash_iff]
    exact hfresh
  have hm := Ingest_map_of_fresh sum256 bucket key name bytes fs w hb hk hd
  constructor
  · rw [Ingest_fresh sum256 bucket key name bytes fs w hb hk hd]
    cases fs with
    | createFails => exact ⟨_, rfl⟩
    | writeFails n => exact ⟨_, rfl⟩
    | succeeds => exact absurd rfl hfs
  · rw [Fetch_insert key (newRecord sum256 bucket key name bytes) _ (by rw [hm]; simp)]
    rfl

/-! ## The display name -/

theorem stripTrailingSeparators_append (path : GoString) :
    ∃ n, path = stripTrailingSeparators path ++ List.replicate n Separator := by
  refine ⟨(path.reverse.takeWhile (fun b => b = Separator)).length, ?_⟩
  have h := List.takeWhile_append_dropWhile (fun b => decide (b = Separator)) path.reverse
  have hrep : path.reverse.takeWhile (fun b => decide (b = Separator)) =
      List.replicate (path.reverse.takeWhile (fun b => decide (b = Separator))).length
        Separator := by
    rw [List.eq_replicate_iff]
    exact ⟨rfl, fun b hb => by simpa using List.mem_takeWhile_imp hb⟩
  have h2 := congrArg List.reverse h
  rw [List.reverse_append, List.reverse_reverse, hrep, List.reverse_replicate] at h2
  exact h2.symm

theorem stripTrailingSeparators_getLast (path : GoString)
    (h : ∃ b ∈ path, b ≠ Separator) :
    ∃ init b, stripTrailingSeparators path = init ++ [b] ∧ b ≠ Separator := by
  unfold stripTrailingSeparators
  have hne : path.reverse.dropWhile (fun b => decide (b = Separator)) ≠ [] := by
    rw [Ne, List.dropWhile_eq_nil_iff]
    intro hall
    obtain ⟨b, hb, hbs⟩ := h
    exact hbs (by simpa using hall b (List.mem_reverse.mpr hb))
  have hhead := List.head_dropWhile_not (fun b => decide (b = Separator)) path.reverse hne
  cases hd : path.reverse.dropWhile (fun b => decide (b = Separator)) with
  | nil => exact absurd hd hne
  | cons b t =>
    refine ⟨t.reverse, b, by simp, ?_⟩
    simp only [hd, List.head_cons] at hhead
    simpa using hhead

theorem lastElement_append (s : GoString) :
    ∃ dir, s = dir ++ lastElement s ∧ (dir = [] ∨ ∃ d, dir = d ++ [Separator]) := by
  refine ⟨(s.reverse.dropWhile (fun b => b ≠ Separator)).reverse, ?_, ?_⟩
  · have h := List.takeWhile_append_dropWhile (fun b => decide (b ≠ Separator)) s.reverse
    have h2 := congrArg List.reverse h
    rw [List.reverse_append, List.reverse_reverse] at h2
    exact h2.symm
  · cases hd : s.reverse.dropWhile (fun b => decide (b ≠ Separator)) with
    | nil => left; rfl
    | cons b t =>
      right
      have hne : s.reverse.dropWhile (fun b => decide (b ≠ Separator)) ≠ [] := by
        rw [hd]; exact List.cons_ne_nil _ _
      have hhead := List.head_dropWhile_not (fun b => decide (b ≠ Separator)) s.reverse hne
      simp only [hd, List.head_cons] at hhead
      have hb : b = Separator := by simpa using hhead
      exact ⟨t.reverse, by simp [hb]⟩

theorem Separator_not_mem_lastElement (s : GoString) : Separator ∉ lastElement s := by
  unfold lastElement
  intro hmem
  have := List.mem_takeWhile_imp (List.mem_reverse.mp hmem)
  simp at this

theorem lastElement_ne_nil (init : GoString) (b : Byte) (hb : b ≠ Separator) :
    lastElement (init ++ [b]) ≠ [] := by
  simp [lastElement, List.takeWhile_cons, hb]

/-- C8, as stated, fails: for the original filename `/` a successful `Ingest` returns and
stores the display name `/`, which is a path separator. -/
theorem ingest_display_name_root :
    (Ingest sampleDigest (ascii "b") (ascii "k") (ascii "/") [1] .succeeds World.empty).2 =
      .ok (ascii "k", ascii "/") ∧
    ((Ingest sampleDigest (ascii "b") (ascii "k") (ascii "/") [1] .succeeds
      World.empty).1.fileMetadataMap.lookup (ascii "k")).map (fun r => r.Filename) =
        some (ascii "/") ∧
    Separator ∈ ascii "/" := by
  decide

/-- C8, amended. The display name that a successful `Ingest` returns and stores is
`filepath.Base` of the original filename. When the filename has a byte other than the
separator, that is its last element once the trailing separators are dropped: it is not
empty, contains no separator, and what precedes it in the filename is empty or ends with a
separator. The empty filename gives `.`, a filename of separators only gives `/`, and
`../../etc/passwd` gives `passwd`. -/
theorem ingest_display_name (sum256 : List Byte → List Byte) (w : World)
    (bucket key name : GoString) (bytes : List Byte) (fs : WriteOutcome)
    (res : GoString × GoString)
    (h : (Ingest sum256 bucket key name bytes fs w).2 = .ok res) :
    res.2 = Base name ∧
    ((Ingest sum256 bucket key name bytes fs w).1.fileMetadataMap.lookup key).map
      (fun r => r.Filename) = some (Base name) ∧
    ((∃ b ∈ name, b ≠ Separator) →
      Separator ∉ Base name ∧ Base name ≠ [] ∧
      ∃ dir n, name = dir ++ Base name ++ List.replicate n Separator ∧
        (dir = [] ∨ ∃ d, dir = d ++ [Separator])) ∧
    (name = [] → Base name = ascii ".") ∧
    (name ≠ [] → (∀ b ∈ name, b = Separator) → Base name = ascii "/") ∧
    Base (ascii "../../etc/passwd") = ascii "passwd" := by
  have hres : res.2 = Base name ∧
      ((Ingest sum256 bucket key name bytes fs w).1.fileMetadataMap.lookup key).map
        (fun r => r.Filename) = some (Base name) := by
    rcases Ingest_cases sum256 bucket key name bytes fs w with
      ⟨fields, he, -⟩ | ⟨he, -⟩ | ⟨hb, hk, hd⟩
    · rw [he] at h; cases h
    · rw [he] at h; cases h
    · have hm := Ingest_map_of_fresh sum256 bucket key name bytes fs w hb hk hd
      rw [Ingest_fresh sum256 bucket key name bytes fs w hb hk hd] at h
      constructor
      · cases fs <;> simp at h
        rw [← h]
      · rw [hm]
        simp [newRecord]
  refine ⟨hres.1, hres.2, ?_, ?_, ?_, by decide⟩
  · intro hex
    obtain ⟨n, hn⟩ := stripTrailingSeparators_append name
    obtain ⟨init, b, hs, hb⟩ := stripTrailingSeparators_getLast name hex
    obtain ⟨dir, hdir, hshape⟩ := lastElement_append (stripTrailingSeparators name)
    have hlast : lastElement (stripTrailingSeparators name) ≠ [] := by
      rw [hs]; exact lastElement_ne_nil init b hb
    have hname : name ≠ [] := by
      obtain ⟨x, hx, -⟩ := hex
      exact List.ne_nil_of_mem hx
    have hbase : Base name = lastElement (stripTrailingSeparators name) := by
      simp [Base, hname, hlast]
    rw [hbase]
    refine ⟨Separator_not_mem_lastElement _, hlast, dir, n, ?_, hshape⟩
    rw [← hdir]
    exact hn
  · intro hnil
    subst hnil
    decide
  · intro hname hall
    have hstrip : stripTrailingSeparators name = [] := by
      unfold stripTrailingSeparators
      rw [List.reverse_eq_nil_iff, List.dropWhile_eq_nil_iff]
      intro x hx
      simpa using hall x (List.mem_reverse.mp hx)
    simp [Base, hname, hstrip, lastElement]
    decide

/-! ## An upload at a key in use -/

/-- C10, as stated, fails: after `Ingest(b, k, n, c)` on the empty registry the map holds a
record at `k` with bucket `b` and bytes `c` and no other record, and `Ingest(b, k, n, c)`
fails with the duplicate-content error: the record at `k` itself is checked. -/
theorem ingest_overwrite_duplicate :
    ((Ingest sampleDigest (ascii "b") (ascii "k") (ascii "n") [1] .succeeds
      World.empty).1.fileMetadataMap.lookup (ascii "k")).map (fun r => (r.BucketId, r.File)) =
      some (ascii "b", [1]) ∧
    (∀ k r, k ≠ ascii "k" →
      (Ingest sampleDigest (ascii "b") (ascii "k") (ascii "n") [1] .succeeds
        World.empty).1.fileMetadataMap.lookup k = some r →
      ¬ (r.BucketId = ascii "b" ∧ r.Hash = hexEncode (sampleDigest [1]))) ∧
    (Ingest sampleDigest (ascii "b") (ascii "k") (ascii "n") [1] .succeeds
      (Ingest sampleDigest (ascii "b") (ascii "k") (ascii "n") [1] .succeeds
        World.empty).1).2 = .error .duplicateContent := by
  refine ⟨by decide, ?_, by decide⟩
  intro k r hk hl
  rw [Ingest_map_of_fresh sampleDigest (ascii "b") (ascii "k") (ascii "n") [1] .succeeds
    World.empty (by decide) (by decide) (by decide), AList.lookup_insert_ne hk] at hl
  simp [World.empty] at hl

/-- C10, amended. An `Ingest` at an already-used key checks the new content against every
record of the map, the one at that key included. When no record at another key has the
bucket and the hash of the submitted bytes and the metadata file is written: if the record
at the key has them, the call fails with the duplicate-content error and changes nothing;
if not, the call succeeds and the new record replaces the old one. -/
theorem ingest_overwrite (sum256 : List Byte → List Byte) (w : World)
    (bucket key name : GoString) (bytes : List Byte) (old : FileDataObject)
    (hb : bucket ≠ []) (hk : key ≠ [])
    (hold : w.fileMetadataMap.lookup key = some old)
    (hothers : ∀ k r, k ≠ key → w.fileMetadataMap.lookup k = some r →
      ¬ (r.BucketId = bucket ∧ r.Hash = hexEncode (sum256 bytes))) :
    if old.BucketId = bucket ∧ old.Hash = hexEncode (sum256 bytes) then
      Ingest sum256 bucket key name bytes .succeeds w = (w, .error .duplicateContent)
    else
      (Ingest sum256 bucket key name bytes .succeeds w).2 = .ok (key, Base name) ∧
      (Ingest sum256 bucket key name bytes .succeeds w).1.fileMetadataMap.lookup key =
        some { BucketId := bucket, FileKey := key, Filename := Base name,
               Hash := hexEncode (sum256 bytes), File := bytes } := by
  split_ifs with hc
  · exact Ingest_duplicate sum256 bucket key name bytes .succeeds w hb hk
      ((checkDuplicateHash_iff _ _ _).mpr ⟨key, old, hold, hc.1, hc.2⟩)
  · have hd : checkDuplicateHash w.fileMetadataMap bucket (hexEncode (sum256 bytes)) = false := by
      rw [Bool.eq_false_iff, Ne, checkDuplicateHash_iff]
      rintro ⟨k, r, hl, hr⟩
      by_cases hkk : k = key
      · subst hkk
        rw [hold] at hl
        cases hl
        exact hc hr
      · exact hothers k r hkk hl hr
    refine ⟨Ingest_result_of_fresh sum256 bucket key name bytes w hb hk hd, ?_⟩
    rw [Ingest_map_of_fresh sum256 bucket key name bytes .succeeds w hb hk hd]
    simp [newRecord]

/-! ## Two uploads at the same time -/

/-- The steps of the model, taken by one call alone, are `SaveUploadedFile`. -/
theorem run_alone_eq_SaveUploadedFile (sum256 : List Byte → List Byte) (c : Context)
    (fs : WriteOutcome) (other : Call) (w : World) (hother : other.isWriting = false) :
    Race.run sum256 [false, false, false, false, false, false] ⟨.start c fs, other, w, false⟩ =
      ⟨.returned (SaveUploadedFile sum256 c fs w).2, other,
        (SaveUploadedFile sum256 c fs w).1, false⟩ := by
  unfold SaveUploadedFile
  cases hf : c.formFile with
  | none => simp [Race.run, Race.step, Call.step, uploadPrepare, hf]
  | some file =>
    by_cases hv : c.bucket_id = [] ∨ c.file_key = []
    · simp [Race.run, Race.step, Call.step, uploadPrepare, hf, hv]
    · cases hs : file.source with
      | openFails => simp [Race.run, Race.step, Call.step, uploadPrepare, hf, hv, hs]
      | readFails => simp [Race.run, Race.step, Call.step, uploadPrepare, hf, hv, hs]
      | bytes fileBytes =>
        cases hd : checkDuplicateHash w.fileMetadataMap c.bucket_id
            (hexEncode (sum256 fileBytes)) with
        | true =>
          simp [Race.run, Race.step, Call.step, uploadPrepare, hf, hv, hs, hd, hother]
        | false =>
          cases fs <;>
            simp [Race.run, Race.step, Call.step, uploadPrepare, hf, hv, hs, hd, hother,
              Prepared.fileObject, saveMetadataMapToFile]

/-- The fatal error of the runtime in the model: the second call runs its duplicate check
while the first is inside its map assignment. -/
theorem race_stopped_inside_assignment :
    (Race.run sampleDigest [false, false, false, true, true]
      (ingestRace (ascii "b") (ascii "k1") (ascii "n") (ascii "k2") (ascii "n") [1]
        World.empty)).aborted = true := by
  decide

/-- C7, as stated, fails: a record ingested under the key `0xff`, which is not valid UTF-8,
is fetched before the snapshot, and after saving and loading into a fresh registry the key
is not found: the encoder wrote the key as U+FFFD. -/
theorem snapshot_invalid_utf8_key :
    (Fetch [0xff]
      (Ingest sampleDigest (ascii "b") [0xff] (ascii "n") [1, 2, 3] .succeeds World.empty).1).2 =
        .ok ([1, 2, 3], ascii "n") ∧
    (saveMetadataMapToFile
      (Ingest sampleDigest (ascii "b") [0xff] (ascii "n") [1, 2, 3] .succeeds World.empty).1
      .succeeds).2 = .ok () ∧
    (LoadMetadataMapFromFile
      ⟨∅, (saveMetadataMapToFile
        (Ingest sampleDigest (ascii "b") [0xff] (ascii "n") [1, 2, 3] .succeeds World.empty).1
        .succeeds).1.disk⟩ .succeeds).map (fun w => (Fetch [0xff] w).2) =
      .ok (.error (.doesNotExist [0xff])) := by
  set_option maxRecDepth 100000 in decide

/-- C7, amended. For every map whose keys, bucket ids, file keys, file names and hashes are
valid UTF-8, whatever bytes its records hold as content: saving the map succeeds when the
file can be written, loading the saved file into a fresh empty registry succeeds, the loaded
map has the same record as the saved one at every key, and `Fetch` of every key returns the
same result on both. -/
theorem snapshot_round_trip (m : FileMap) (disk : Option (List Byte)) (hvalid : ValidMap m) :
    (saveMetadataMapToFile ⟨m, disk⟩ .succeeds).2 = .ok () ∧
    ∃ w, LoadMetadataMapFromFile
        ⟨∅, (saveMetadataMapToFile ⟨m, disk⟩ .succeeds).1.disk⟩ .succeeds = .ok w ∧
      (∀ k, w.fileMetadataMap.lookup k = m.lookup k) ∧
      (∀ k, (Fetch k w).2 = (Fetch k ⟨m, disk⟩).2) := by
  obtain ⟨loaded, hdec, hlook⟩ := Decode_Encode m hvalid
  refine ⟨rfl, ⟨loaded, some (Encode m)⟩, ?_, hlook, ?_⟩
  · simp [LoadMetadataMapFromFile, saveMetadataMapToFile, hdec]
  · intro k
    simp only [Fetch, FetchFileContent, hlook k]
    cases m.lookup k <;> rfl

/-! ## The theorems at concrete inputs -/

theorem ingest_duplicate_iff_witness :
    (ascii "b" ≠ [] ∧ ascii "k1" ≠ [] ∧ ascii "k2" ≠ [] ∧ ascii "c" ≠ [] ∧ ascii "k3" ≠ [] ∧
      ascii "c" ≠ ascii "b") ∧
    (Ingest sampleDigest (ascii "b") (ascii "k1") (ascii "n") [1] .succeeds World.empty).2 =
      .ok (ascii "k1", Base (ascii "n")) ∧
    (Ingest sampleDigest (ascii "b") (ascii "k2") (ascii "n") [1] .succeeds
      (Ingest sampleDigest (ascii "b") (ascii "k1") (ascii "n") [1] .succeeds World.empty).1).2 =
        .error .duplicateContent ∧
    (Ingest sampleDigest (ascii "c") (ascii "k3") (ascii "n") [1] .succeeds
      (Ingest sampleDigest (ascii "b") (ascii "k2") (ascii "n") [1] .succeeds
        (Ingest sampleDigest (ascii "b") (ascii "k1") (ascii "n") [1] .succeeds
          World.empty).1).1).2 = .ok (ascii "k3", Base (ascii "n")) :=
  ⟨by decide,
    (ingest_duplicate_iff sampleDigest World.empty (ascii "b") (ascii "k1") (ascii "n") [1]
      (ascii "k2") (ascii "n") (ascii "c") (ascii "k3") (ascii "n")
      (by decide) (by decide) (by decide) (by decide) (by decide) (by decide)).2.2⟩

theorem fetch_after_ingest_witness :
    (Ingest sampleDigest (ascii "b") (ascii "k") (ascii "dir/n.txt") [7, 8] .succeeds
      World.empty).2 = .ok (ascii "k", ascii "n.txt") ∧
    (Fetch (ascii "k")
      (Ingest sampleDigest (ascii "b") (ascii "k") (ascii "dir/n.txt") [7, 8] .succeeds
        World.empty).1).2 = .ok ([7, 8], ascii "n.txt") :=
  ⟨by decide,
    fetch_after_ingest sampleDigest World.empty (ascii "b") (ascii "k") (ascii "dir/n.txt")
      [7, 8] .succeeds (ascii "k", ascii "n.txt") (by decide)⟩

theorem ingest_validation_witness :
    (([] : GoString) = [] ∨ ascii "k" = []) ∧
    (Ingest sampleDigest [] (ascii "k") (ascii "n") [1] .succeeds World.empty).2 =
      .error (.missingFields ["bucket_id"]) ∧
    (Ingest sampleDigest [] (ascii "k") (ascii "n") [1] .succeeds World.empty).1 =
      World.empty :=
  ⟨by decide,
    (ingest_validation sampleDigest World.empty [] (ascii "k") (ascii "n") [1] .succeeds
      (by decide)).1,
    (ingest_validation sampleDigest World.empty [] (ascii "k") (ascii "n") [1] .succeeds
      (by decide)).2.1⟩

theorem fetch_spec_witness :
    (Fetch (ascii "k")
      (Ingest sampleDigest (ascii "b") (ascii "k") (ascii "n") [1] .succeeds World.empty).1).2 =
        .ok ([1], ascii "n") :=
  (fetch_spec (ascii "k")
    (Ingest sampleDigest (ascii "b") (ascii "k") (ascii "n") [1] .succeeds World.empty).1).2.1
    ⟨ascii "b", ascii "k", ascii "n", hexEncode (sampleDigest [1]), [1]⟩ (by decide)

theorem ingest_persistence_failure_witness :
    (ascii "b" ≠ [] ∧ ascii "k" ≠ [] ∧ WriteOutcome.createFails ≠ WriteOutcome.succeeds) ∧
    (∃ cause, (Ingest sampleDigest (ascii "b") (ascii "k") (ascii "n") [1] .createFails
      World.empty).2 = .error (.saveMetadataMap cause)) ∧
    (Fetch (ascii "k") (Ingest sampleDigest (ascii "b") (ascii "k") (ascii "n") [1]
      .createFails World.empty).1).2 = .ok ([1], Base (ascii "n")) :=
  ⟨by decide,
    ingest_persistence_failure sampleDigest World.empty (ascii "b") (ascii "k") (ascii "n") [1]
      .createFails (by decide) (by decide) (by simp [World.empty]) (by decide)⟩

theorem ingest_display_name_witness :
    (∃ b ∈ ascii "../../etc/passwd", b ≠ Separator) ∧
    (Ingest sampleDigest (ascii "b") (ascii "k") (ascii "../../etc/passwd") [1] .succeeds
      World.empty).2 = .ok (ascii "k", ascii "passwd") ∧
    Separator ∉ Base (ascii "../../etc/passwd") :=
  ⟨by decide, by decide,
    ((ingest_display_name sampleDigest World.empty (ascii "b") (ascii "k")
      (ascii "../../etc/passwd") [1] .succeeds (ascii "k", ascii "passwd")
      (by decide)).2.2.1 (by decide)).1⟩

theorem ingest_overwrite_witness :
    (Ingest sampleDigest (ascii "b") (ascii "k") (ascii "n2") [2] .succeeds
      ⟨(∅ : FileMap).insert (ascii "k")
        ⟨ascii "b", ascii "k", ascii "n", hexEncode (sampleDigest [1]), [1]⟩, none⟩).2 =
      .ok (ascii "k", Base (ascii "n2")) ∧
    (Ingest sampleDigest (ascii "b") (ascii "k") (ascii "n2") [2] .succeeds
      ⟨(∅ : FileMap).insert (ascii "k")
        ⟨ascii "b", ascii "k", ascii "n", hexEncode (sampleDigest [1]), [1]⟩,
        none⟩).1.fileMetadataMap.lookup (ascii "k") =
      some { BucketId := ascii "b", FileKey := ascii "k", Filename := Base (ascii "n2"),
             Hash := hexEncode (sampleDigest [2]), File := [2] } :=
  (if_neg (by decide)).mp
    (ingest_overwrite sampleDigest
      ⟨(∅ : FileMap).insert (ascii "k")
        ⟨ascii "b", ascii "k", ascii "n", hexEncode (sampleDigest [1]), [1]⟩, none⟩
      (ascii "b") (ascii "k") (ascii "n2") [2]
      ⟨ascii "b", ascii "k", ascii "n", hexEncode (sampleDigest [1]), [1]⟩
      (by decide) (by decide) (by decide)
      (fun k r hk hl => by rw [AList.lookup_insert_ne hk] at hl; simp at hl))

theorem snapshot_round_trip_witness :
    ValidMap ((∅ : FileMap).insert (ascii "k")
      ⟨ascii "b", ascii "k", [0x61, 0xc3, 0xa9, 0x3c], ascii "00ff", [0, 255, 10, 34]⟩) ∧
    ∃ w, LoadMetadataMapFromFile
        ⟨∅, (saveMetadataMapToFile ⟨(∅ : FileMap).insert (ascii "k")
          ⟨ascii "b", ascii "k", [0x61, 0xc3, 0xa9, 0x3c], ascii "00ff", [0, 255, 10, 34]⟩,
          none⟩ .succeeds).1.disk⟩ .succeeds = .ok w ∧
      (Fetch (ascii "k") w).2 = .ok ([0, 255, 10, 34], [0x61, 0xc3, 0xa9, 0x3c]) :=
  ⟨by unfold ValidMap ValidRecord; decide,
    match (snapshot_round_trip ((∅ : FileMap).insert (ascii "k")
      ⟨ascii "b", ascii "k", [0x61, 0xc3, 0xa9, 0x3c], ascii "00ff", [0, 255, 10, 34]⟩) none
      (by unfold ValidMap ValidRecord; decide)).2 with
    | ⟨w, hw, _, hf⟩ => ⟨w, hw, (hf (ascii "k")).trans (by decide)⟩⟩

end FileService
